import Mathlib

/-
Verification of the turtle-rust runtime pipeline (lexer, parser, tree-walking
interpreter, rasterizer) against its natural-language specification.

The Rust sources are shallowly embedded: each Rust function becomes an
executable Lean definition over explicit state, machine floats are modelled by
the type `F64` below, fallible code returns `Except RuntimeError`, and the
render channel becomes an accumulated list of commands.
-/

namespace TurtleRust

/-- Model of Rust `f64`: rationals extended with NaN and the two signed
infinities (constructor `inf true` is negative infinity).  The rounding of
finite IEEE-754 doubles to 53-bit mantissas, overflow to infinity, and the
negative-zero distinction are idealized away: finite values are exact
rationals.  None of the verified claims depends on those aspects. -/
inductive F64 where
  | nan : F64
  | inf : Bool → F64
  | num : ℚ → F64
deriving DecidableEq, Repr

namespace F64

/-- IEEE negation: NaN stays NaN, infinities and finite values flip sign. -/
def neg : F64 → F64
  | nan => nan
  | inf s => inf (!s)
  | num q => num (-q)

/-- IEEE addition on the model: NaN propagates, opposite infinities give NaN. -/
def add : F64 → F64 → F64
  | nan, _ => nan
  | _, nan => nan
  | inf s, inf t => if s = t then inf s else nan
  | inf s, num _ => inf s
  | num _, inf t => inf t
  | num a, num b => num (a + b)

/-- IEEE subtraction, as addition of the negation. -/
def sub (a b : F64) : F64 := a.add b.neg

/-- IEEE multiplication on the model: NaN propagates, infinity times zero is NaN. -/
def mul : F64 → F64 → F64
  | nan, _ => nan
  | _, nan => nan
  | inf s, inf t => inf (xor s t)
  | inf s, num q => if q = 0 then nan else inf (xor s (decide (q < 0)))
  | num q, inf t => if q = 0 then nan else inf (xor t (decide (q < 0)))
  | num a, num b => num (a * b)

/-- IEEE division on the model: NaN propagates, a finite value divided by zero
is a signed infinity (NaN when the dividend is also zero), infinity divided by
infinity is NaN, a finite value divided by infinity is zero. -/
def div : F64 → F64 → F64
  | nan, _ => nan
  | _, nan => nan
  | inf _, inf _ => nan
  | inf s, num q => inf (xor s (decide (q < 0)))
  | num _, inf _ => num 0
  | num a, num b =>
    if b = 0 then (if a = 0 then nan else inf (decide (a < 0)))
    else num (a / b)

/-- IEEE `<=` as a boolean: any comparison with NaN is false. -/
def le : F64 → F64 → Bool
  | nan, _ => false
  | _, nan => false
  | inf s, inf t => s || !t
  | inf s, num _ => s
  | num _, inf t => !t
  | num a, num b => decide (a ≤ b)

/-- Floor of a rational as an integer, written so the kernel can evaluate
it (`Int.fdiv` is floor division and `q.den` is positive). -/
def qfloor (q : ℚ) : ℤ := q.num.fdiv q.den

/-- Truncation toward zero of a rational, as an integer (`Int.tdiv`
truncates toward zero). -/
def qtrunc (q : ℚ) : ℤ := q.num.tdiv q.den

/-- Rust `as u8` on an `f64`: truncate toward zero and saturate to `0..=255`;
NaN casts to 0. -/
def asU8 : F64 → ℕ
  | nan => 0
  | inf s => if s then 0 else 255
  | num q => if q < 0 then 0 else min 255 (qtrunc q).toNat

/-- Rust `as usize` on an `f64` (64-bit target): truncate toward zero and
saturate to `0..=2^64-1`; NaN casts to 0. -/
def asUsize : F64 → ℕ
  | nan => 0
  | inf s => if s then 0 else 2 ^ 64 - 1
  | num q => if q < 0 then 0 else min (2 ^ 64 - 1) (qtrunc q).toNat

/-- Rust `as i32` on an `f64`: truncate toward zero and saturate to the `i32`
range; NaN casts to 0. -/
def asI32 : F64 → ℤ
  | nan => 0
  | inf s => if s then -(2 ^ 31) else 2 ^ 31 - 1
  | num q => max (-(2 ^ 31)) (min (2 ^ 31 - 1) (qtrunc q))

/-- Rust `f64::round`: round half away from zero; NaN and infinities unchanged. -/
def round : F64 → F64
  | nan => nan
  | inf s => inf s
  | num q => num (if q < 0 then -(qfloor (-q + 1/2)) else qfloor (q + 1/2))

/-- Display form of a model float, standing in for Rust's `Display for f64` in
formatted error messages.  Claims never depend on the digits produced. -/
def fmt : F64 → String
  | nan => "NaN"
  | inf s => if s then "-inf" else "inf"
  | num q => if q.den = 1 then toString q.num else toString q

end F64

/-- Model of `druid::Color`: four RGBA bytes.  druid stores a packed `u32`;
the four `Fin 256` fields model exactly that information. -/
structure Color where
  r : Fin 256
  g : Fin 256
  b : Fin 256
  a : Fin 256
deriving DecidableEq, Repr

namespace Color

/-- druid `Color::rgba8`. -/
def rgba8 (r g b a : ℕ) : Color :=
  ⟨Fin.ofNat r, Fin.ofNat g, Fin.ofNat b, Fin.ofNat a⟩

/-- druid `Color::rgb8`: alpha is 255. -/
def rgb8 (r g b : ℕ) : Color := rgba8 r g b 255

/-- druid's CSS color constants used by the interpreter. -/
def BLACK : Color := rgb8 0 0 0
def WHITE : Color := rgb8 255 255 255
def BLUE : Color := rgb8 0 0 255
def AQUA : Color := rgb8 0 255 255
def RED : Color := rgb8 255 0 0
def FUCHSIA : Color := rgb8 255 0 255
def YELLOW : Color := rgb8 255 255 0
def GREEN : Color := rgb8 0 128 0

end Color

/-- Association-list model of `std::collections::HashMap`: `lookup` finds the
first binding, `insert` replaces any existing binding.  Only `lookup`,
`insert` and emptiness are used by the embedded code, so iteration order is
irrelevant. -/
def AList (α : Type) : Type := List (String × α)

namespace AList

def empty {α : Type} : AList α := []

def lookup {α : Type} (k : String) : AList α → Option α
  | [] => none
  | (k₂, v) :: rest => if k₂ = k then some v else lookup k rest

/-- Helper for `insert`: drop every binding of key `k`. -/
def eraseKey {α : Type} (k : String) : AList α → AList α
  | [] => []
  | (k₂, v) :: rest =>
    if k₂ = k then eraseKey k rest else (k₂, v) :: eraseKey k rest

def insert {α : Type} (k : String) (v : α) (m : AList α) : AList α :=
  (k, v) :: eraseKey k m

end AList

/-- Model of the `RuntimeError` enum used by the runtime revision in the
snapshot (its `error.rs` revision is absent; the three phase-tagged `String`
constructors are reconstructed from every construction site in `lexer.rs`,
`parser.rs` and `interpreter.rs`, matching the spec's error union).  The two
extra constructors are artifacts of the shallow embedding only: `rustPanic`
marks executions where the Rust program would panic (slice index out of
bounds, `unwrap` of `None`), and `outOfFuel` marks exhaustion of the fuel
that makes general recursion structural. -/
inductive RuntimeError where
  | lexer : String → RuntimeError
  | parser : String → RuntimeError
  | interpreter : String → RuntimeError
  | rustPanic : String → RuntimeError
  | outOfFuel : RuntimeError
deriving DecidableEq, Repr

/-- Result alias mirroring `RuntimeResult<T>`. -/
abbrev RuntimeResult (α : Type) : Type := Except RuntimeError α

instance {ε α : Type} [DecidableEq ε] [DecidableEq α] :
    DecidableEq (Except ε α) := fun x y =>
  match x, y with
  | .ok a, .ok b =>
    if h : a = b then isTrue (by rw [h]) else isFalse (by intro hc; cases hc; exact h rfl)
  | .error a, .error b =>
    if h : a = b then isTrue (by rw [h]) else isFalse (by intro hc; cases hc; exact h rfl)
  | .ok _, .error _ => isFalse (by intro hc; cases hc)
  | .error _, .ok _ => isFalse (by intro hc; cases hc)

/-- Lexer operators (`LexerOperator` as used by `lexer.rs`/`parser.rs`:
the snapshot's `lexer_types.rs` lacks `Modulo`, but `Lexer::operator`
emits it, so the active revision has all six). -/
inductive LexerOperator where
  | add | assign | divide | modulo | multiply | subtract
deriving DecidableEq, Repr

/-- Lexer output tokens (`LexerAny` of the revision `lexer.rs` and
`parser.rs` compile against: words and numbers carry their payloads
directly, and `LexerBinExpr` boxes two `LexerAny` children).  These are
exactly the six shapes the lexer produces. -/
inductive LexerAny where
  | lexerBlock : List LexerAny → LexerAny
  | lexerBinExpr : LexerAny → LexerOperator → LexerAny → LexerAny
  | lexerList : List LexerAny → LexerAny
  | lexerNumber : F64 → LexerAny
  | lexerOperator : LexerOperator → LexerAny
  | lexerWord : String → LexerAny

/-- List of tokens (`LexerList`, also `LexerBlock`). -/
abbrev LexerList : Type := List LexerAny

namespace Interp

/-
Embedding of `runtime/interpreter.rs`.  Its companion `interpreter_types.rs`
is absent from the snapshot, so the node types below are reconstructed from
their complete usage inside `interpreter.rs` (every constructor matched by
`run` and every accessor applied), guided by the spec's AST description
(spec §3).  `Word`/`Number` wrappers are collapsed to their single payload.
-/

/-- Operators carried by `BinExpr` tokens (`LexerOperator` of the lexing
revision in the snapshot, plus `Modulo` which `lexer.rs` emits). -/
inductive Operator where
  | add | assign | divide | modulo | multiply | subtract
deriving DecidableEq, Repr

/-- Movement and rotation directions (`Direction` in `parser_types.rs`). -/
inductive Direction where
  | left | backward | forward | right
deriving DecidableEq, Repr

mutual
/-- Argument position accepting an expression, list, number or word
(`ExprNumWord`, matched exhaustively by `eval_expr_num_word`). -/
inductive ExprNumWord where
  | expression : Expression → ExprNumWord
  | list : List AnyItem → ExprNumWord
  | number : F64 → ExprNumWord
  | word : String → ExprNumWord

/-- Binary expression node (`Expression` with accessors `a`, `op`, `b`). -/
inductive Expression where
  | mk : ExprNumWord → Operator → ExprNumWord → Expression

/-- Argument position accepting a list, number or word (`ListNumWord`,
matched exhaustively by `eval_list_num_word`). -/
inductive ListNumWord where
  | list : List AnyItem → ListNumWord
  | number : F64 → ListNumWord
  | word : String → ListNumWord

/-- Element of a list literal (`AnyItem`).  `eval_any_item` matches the six
evaluable shapes and rejects everything else with a catch-all arm;
`otherItem` stands for the rejected remainder of the missing enum. -/
inductive AnyItem where
  | expression : Expression → AnyItem
  | exprNumWord : ExprNumWord → AnyItem
  | list : List AnyItem → AnyItem
  | listNumWord : ListNumWord → AnyItem
  | number : F64 → AnyItem
  | word : String → AnyItem
  | otherItem : AnyItem
end

/-- Accessor `Expression::a`. -/
def Expression.a : Expression → ExprNumWord
  | .mk a _ _ => a

/-- Accessor `Expression::op`. -/
def Expression.op : Expression → Operator
  | .mk _ op _ => op

/-- Accessor `Expression::b`. -/
def Expression.b : Expression → ExprNumWord
  | .mk _ _ b => b

/-- Runtime values (`Value`): lists and numbers. -/
inductive Value where
  | list : List Value → Value
  | number : F64 → Value

/-- Variable map (`VarMap = HashMap<String, Value>`). -/
abbrev VarMap : Type := AList Value

/-- Node `Assign{name, val}`. -/
structure AssignNode where
  name : String
  val : ExprNumWord
/-- Node `Let{name, val}`. -/
structure LetNode where
  name : String
  val : ExprNumWord
/-- Node `Call{name}` (`node.name()` is a `Word`; only its string is read). -/
structure CallNode where
  name : String
/-- Node `Move{distance, direction}`. -/
structure MoveNode where
  distance : ExprNumWord
  direction : Direction
/-- Node `Rotate{angle, direction}`. -/
structure RotateNode where
  angle : ExprNumWord
  direction : Direction
/-- Node `SetHeading{angle}`. -/
structure SetHeadingNode where
  angle : ExprNumWord
/-- Node `SetPenColor{color}`. -/
structure SetPenColorNode where
  color : ListNumWord
/-- Node `SetPosition{x?, y?}`. -/
structure SetPositionNode where
  x : Option ExprNumWord
  y : Option ExprNumWord
/-- Node `SetScreenColor{color}`. -/
structure SetScreenColorNode where
  color : ListNumWord
/-- Pen statement (`PenNode`), the two variants matched by `eval_pen`. -/
inductive PenNode where
  | down | up
deriving DecidableEq, Repr

mutual
/-- Statement nodes (`Node`): exactly the fourteen variants matched
exhaustively by `Interpreter::run`.  Rust variant names `Let` and `Repeat`
are rendered `letStmt` and `repeatStmt`. -/
inductive Node where
  | assign : AssignNode → Node
  | call : CallNode → Node
  | clean : Node
  | clearScreen : Node
  | home : Node
  | letStmt : LetNode → Node
  | move : MoveNode → Node
  | pen : PenNode → Node
  | repeatStmt : RepeatNode → Node
  | rotate : RotateNode → Node
  | setHeading : SetHeadingNode → Node
  | setPosition : SetPositionNode → Node
  | setPenColor : SetPenColorNode → Node
  | setScreenColor : SetScreenColorNode → Node

/-- Node `Repeat{count, list}` (accessors `count()` and `list()`). -/
inductive RepeatNode where
  | mk : ExprNumWord → List Node → RepeatNode
end

/-- Accessor `RepeatNode::count`. -/
def RepeatNode.count : RepeatNode → ExprNumWord
  | .mk c _ => c

/-- Accessor `RepeatNode::list`. -/
def RepeatNode.list : RepeatNode → List Node
  | .mk _ l => l

/-- Function definition stored in the function map (spec §3: `{num_args,
body}`; the interpreter reads only `.list`). -/
structure FuncDef where
  numArgs : ℕ
  list : List Node

/-- Function map (`FuncMap`). -/
abbrev FuncMap : Type := AList FuncDef

/-- Call frame (`Frame`), carrying only `repcount`. -/
structure Frame where
  repcount : ℕ
deriving DecidableEq, Repr

/-- Turtle position (`druid::Point`). -/
structure Point where
  x : F64
  y : F64
deriving DecidableEq, Repr

/-- Constant `Point::ZERO`. -/
def Point.ZERO : Point := ⟨F64.num 0, F64.num 0⟩

/-- Interpreter state (`State`). -/
structure State where
  angle : F64
  color : Color
  pen_down : Bool
  pos : Point
  screen_color : Color
deriving DecidableEq, Repr

/-- Constructor `State::new`. -/
def State.new : State :=
  { angle := F64.num 0
    color := Color.WHITE
    pen_down := true
    pos := Point.ZERO
    screen_color := Color.BLACK }

/-- Render command `MoveTo` as constructed by `move_to_inner`
(`MoveTo::new(angle, color, 0.0, pen_down, pos)`). -/
structure MoveTo where
  angle : F64
  color : Color
  distance : F64
  pen_down : Bool
  pos : Point
deriving DecidableEq, Repr

/-- Render commands emitted by this interpreter revision. -/
inductive RenderCommand where
  | moveTo : MoveTo → RenderCommand
deriving DecidableEq, Repr

/-- Palette (`Palette = HashMap<u8, Color>`), as a key-distinct list. -/
def Palette : Type := List (ℕ × Color)

/-- HashMap `get` on the palette. -/
def Palette.get : Palette → ℕ → Option Color
  | [], _ => none
  | (k, c) :: rest, idx => if k = idx then some c else Palette.get rest idx

/-- The 16-entry palette built in `Interpreter::new`.  Named druid constants
take their CSS values (`GREEN` is `(0,128,0)`, `AQUA` is `(0,255,255)`). -/
def default_palette : Palette :=
  [ (0, Color.BLACK)
  , (1, Color.BLUE)
  , (2, Color.rgb8 0 255 0)
  , (3, Color.AQUA)
  , (4, Color.RED)
  , (5, Color.FUCHSIA)
  , (6, Color.YELLOW)
  , (7, Color.WHITE)
  , (8, Color.rgb8 165 42 42)
  , (9, Color.rgb8 210 180 140)
  , (10, Color.GREEN)
  , (11, Color.rgb8 127 255 212)
  , (12, Color.rgb8 250 128 114)
  , (13, Color.rgb8 128 0 128)
  , (14, Color.rgb8 255 165 0)
  , (15, Color.rgb8 128 128 128) ]

/-- The interpreter (`Interpreter`): palette, turtle state, and the history
of commands sent on `render_tx` (the unbounded channel is modelled as the
list of successfully sent commands; sends never block). -/
structure Interpreter where
  pal : Palette
  state : State
  cmds : List RenderCommand

/-- Constructor `Interpreter::new`. -/
def Interpreter.new : Interpreter :=
  { pal := default_palette, state := State.new, cmds := [] }

/-- Helper `get_number`. -/
def get_number : Value → RuntimeResult F64
  | .number num => .ok num
  | _ => .error (.interpreter "expected a number")

/-- Helper `eval_add`: numbers add; list+list concatenates; list+number
appends; number+list is an error. -/
def eval_add : Value → Value → RuntimeResult Value
  | .number a, .number b => .ok (.number (a.add b))
  | .number _, .list _ => .error (.interpreter "cannot add a number and a list")
  | .list a, .list b => .ok (.list (a ++ b))
  | .list a, .number b => .ok (.list (a ++ [Value.number b]))

/-- Helper `eval_divide`: numbers divide (IEEE semantics, no zero check);
any list operand is an error. -/
def eval_divide : Value → Value → RuntimeResult Value
  | .number a, .number b => .ok (.number (a.div b))
  | .number _, .list _ => .error (.interpreter "cannot divide a number and a list")
  | .list _, _ => .error (.interpreter "cannot divide two lists")

/-- Helper `eval_multiply`. -/
def eval_multiply : Value → Value → RuntimeResult Value
  | .number a, .number b => .ok (.number (a.mul b))
  | .number _, .list _ => .error (.interpreter "cannot multiply a number and a list")
  | .list _, _ => .error (.interpreter "cannot multiply two lists")

/-- Helper `eval_subtract`. -/
def eval_subtract : Value → Value → RuntimeResult Value
  | .number a, .number b => .ok (.number (a.sub b))
  | .number _, .list _ => .error (.interpreter "cannot subtract a list from a number")
  | .list _, _ => .error (.interpreter "cannot subtract two lists")

/-- Helper `get_color_component`: numeric only, range-checked
`0.0 <= comp <= 255.0` (NaN fails the check), then cast with `as u8`. -/
def get_color_component (val : Value) : RuntimeResult ℕ :=
  match get_number val with
  | .error e => .error e
  | .ok comp =>
    if F64.le (F64.num 0) comp && F64.le comp (F64.num 255) then
      .ok comp.asU8
    else
      .error (.interpreter ("color component out of bounds " ++ comp.fmt))

/-- Helper `vlist_expect`. -/
def vlist_expect (list : List Value) (n : ℕ) : RuntimeResult Unit :=
  if list.length < n then .error (.interpreter s!"{n} items expected")
  else .ok ()

/-- Helper `get_color`: a list of at least three components becomes an RGB
color with alpha 255; a number is a palette lookup of its `as u8` cast. -/
def get_color (pal : Palette) (val : Value) : RuntimeResult Color :=
  match val with
  | .list l =>
    match vlist_expect l 3 with
    | .error e => .error e
    | .ok _ =>
      match l with
      | c0 :: c1 :: c2 :: _ =>
        match get_color_component c0 with
        | .error e => .error e
        | .ok red =>
          match get_color_component c1 with
          | .error e => .error e
          | .ok green =>
            match get_color_component c2 with
            | .error e => .error e
            | .ok blue => .ok (Color.rgb8 red green blue)
      | _ => .error (.rustPanic "index out of bounds")
  | .number num =>
    let idx := num.asU8
    match Palette.get pal idx with
    | some color => .ok color
    | none => .error (.interpreter s!"invalid palette index {idx}")

/-- Helper `eval_word`: variable lookup. -/
def eval_word (vmap : VarMap) (name : String) : RuntimeResult Value :=
  match AList.lookup name vmap with
  | some value => .ok value
  | none => .error (.interpreter s!"no such variable {name}")

mutual
/-- Method `eval_any_item`. -/
def eval_any_item (vmap : VarMap) : AnyItem → RuntimeResult Value
  | .expression expr => eval_expr vmap expr
  | .exprNumWord enw => eval_expr_num_word vmap enw
  | .list list => eval_list vmap list
  | .listNumWord lnw => eval_list_num_word vmap lnw
  | .number num => .ok (.number num)
  | .word word => eval_word vmap word
  | .otherItem => .error (.interpreter "cannot evaluate item")

/-- Method `eval_expr`: evaluate `a`, then `b`, then apply the operator;
`Assign` (and `Modulo`) fall to the catch-all error arm. -/
def eval_expr (vmap : VarMap) : Expression → RuntimeResult Value
  | .mk a op b =>
    match eval_expr_num_word vmap a with
    | .error e => .error e
    | .ok va =>
      match eval_expr_num_word vmap b with
      | .error e => .error e
      | .ok vb =>
        match op with
        | .add => eval_add va vb
        | .divide => eval_divide va vb
        | .multiply => eval_multiply va vb
        | .subtract => eval_subtract va vb
        | _ => .error (.interpreter "cannot evaluate assignment as part of expression")

/-- Method `eval_expr_num_word`. -/
def eval_expr_num_word (vmap : VarMap) : ExprNumWord → RuntimeResult Value
  | .expression expr => eval_expr vmap expr
  | .list list => eval_list vmap list
  | .number num => .ok (.number num)
  | .word word => eval_word vmap word

/-- Method `eval_list`: evaluate each item in order into a `Value::List`. -/
def eval_list (vmap : VarMap) (list : List AnyItem) : RuntimeResult Value :=
  match eval_items vmap list with
  | .error e => .error e
  | .ok out => .ok (.list out)

/-- Loop body of `eval_list`. -/
def eval_items (vmap : VarMap) : List AnyItem → RuntimeResult (List Value)
  | [] => .ok []
  | item :: rest =>
    match eval_any_item vmap item with
    | .error e => .error e
    | .ok v =>
      match eval_items vmap rest with
      | .error e => .error e
      | .ok vs => .ok (v :: vs)

/-- Method `eval_list_num_word`. -/
def eval_list_num_word (vmap : VarMap) : ListNumWord → RuntimeResult Value
  | .list list => eval_list vmap list
  | .number num => .ok (.number num)
  | .word word => eval_word vmap word
end

/-- Method `eval_expr_num_word_as_number`. -/
def eval_expr_num_word_as_number (vmap : VarMap) (enw : ExprNumWord) :
    RuntimeResult F64 :=
  match eval_expr_num_word vmap enw with
  | .error e => .error e
  | .ok val => get_number val

/-- The transcendental `f64` operations the interpreter uses
(`to_radians`, `cos`, `sin`, `atan2`).  Their exact values on hardware
doubles are not rational, so the embedding is parametric in them; no
verified claim depends on their values. -/
structure FloatOps where
  toRadians : F64 → F64
  cos : F64 → F64
  sin : F64 → F64
  atan2 : F64 → F64 → F64

/-- Static method `Interpreter::angle` (note the argument order:
`move_to` passes the target first and the current position second). -/
def angle (ops : FloatOps) (p other : Point) : F64 :=
  (ops.atan2 other.y other.x).sub (ops.atan2 p.y p.x)

/-- Method `move_to_inner`: send a `MoveTo` carrying the current pen color
and pen state.  The channel send is modelled as an append to the command
history; the send-failure path (receiver dropped) is an environment
condition outside this embedding. -/
def move_to_inner (it : Interpreter) (a : F64) (p : Point) : Interpreter :=
  { it with
    cmds := it.cmds ++
      [RenderCommand.moveTo
        ⟨a, it.state.color, F64.num 0, it.state.pen_down, p⟩] }

/-- Method `move_by`: heading is `90°.to_radians() - state.angle`; the new
position is the rounded displaced point. -/
def move_by (ops : FloatOps) (it : Interpreter) (distance : F64) : Interpreter :=
  let a := (ops.toRadians (F64.num 90)).sub it.state.angle
  let p : Point :=
    ⟨(it.state.pos.x.add (distance.mul (ops.cos a))).round,
     (it.state.pos.y.add (distance.mul (ops.sin a))).round⟩
  let it₂ := move_to_inner it a p
  { it₂ with state := { it₂.state with pos := p } }

/-- Method `move_to`. -/
def move_to (ops : FloatOps) (it : Interpreter) (p : Point) : Interpreter :=
  let a := angle ops p it.state.pos
  let it₂ := move_to_inner it a p
  { it₂ with state := { it₂.state with pos := p } }

/-- Method `eval_assign`: the value is evaluated first; the variable must
already exist. -/
def eval_assign (vmap : VarMap) (node : AssignNode) : RuntimeResult VarMap :=
  match eval_expr_num_word vmap node.val with
  | .error e => .error e
  | .ok value =>
    match AList.lookup node.name vmap with
    | some _ => .ok (AList.insert node.name value vmap)
    | none => .error (.interpreter s!"no such variable {node.name}")

/-- Method `eval_let`: insert (overwriting) into the variable map. -/
def eval_let (vmap : VarMap) (node : LetNode) : RuntimeResult VarMap :=
  match eval_expr_num_word vmap node.val with
  | .error e => .error e
  | .ok val => .ok (AList.insert node.name val vmap)

/-- Method `eval_clean`: a no-op at the interpreter layer. -/
def eval_clean (it : Interpreter) : Interpreter := it

/-- Method `eval_home`. -/
def eval_home (ops : FloatOps) (it : Interpreter) : Interpreter :=
  move_to ops it Point.ZERO

/-- Method `eval_clear_screen`: `home` then `clean`. -/
def eval_clear_screen (ops : FloatOps) (it : Interpreter) : Interpreter :=
  eval_clean (eval_home ops it)

/-- Method `eval_move`. -/
def eval_move (ops : FloatOps) (vmap : VarMap) (node : MoveNode)
    (it : Interpreter) : RuntimeResult Interpreter :=
  match eval_expr_num_word_as_number vmap node.distance with
  | .error e => .error e
  | .ok distance =>
    match node.direction with
    | .forward => .ok (move_by ops it distance)
    | .backward => .ok (move_by ops it distance.neg)
    | _ => .error (.interpreter "movement must be forward or backward")

/-- Method `eval_pen`. -/
def eval_pen (it : Interpreter) (node : PenNode) : Interpreter :=
  match node with
  | .down => { it with state := { it.state with pen_down := true } }
  | .up => { it with state := { it.state with pen_down := false } }

/-- Method `eval_rotate`: degrees are converted to radians and
added/subtracted from the state angle. -/
def eval_rotate (ops : FloatOps) (vmap : VarMap) (node : RotateNode)
    (it : Interpreter) : RuntimeResult Interpreter :=
  match eval_expr_num_word_as_number vmap node.angle with
  | .error e => .error e
  | .ok a =>
    match node.direction with
    | .left =>
      .ok { it with state := { it.state with angle := it.state.angle.sub (ops.toRadians a) } }
    | .right =>
      .ok { it with state := { it.state with angle := it.state.angle.add (ops.toRadians a) } }
    | _ => .error (.interpreter "rotation must be right or left")

/-- Method `eval_set_heading`. -/
def eval_set_heading (ops : FloatOps) (vmap : VarMap) (node : SetHeadingNode)
    (it : Interpreter) : RuntimeResult Interpreter :=
  match eval_expr_num_word_as_number vmap node.angle with
  | .error e => .error e
  | .ok a => .ok { it with state := { it.state with angle := ops.toRadians a } }

/-- Method `eval_set_pen_color`: resolve the color, then update the pen
color; on error nothing is updated and nothing is emitted. -/
def eval_set_pen_color (vmap : VarMap) (node : SetPenColorNode)
    (it : Interpreter) : RuntimeResult Interpreter :=
  match eval_list_num_word vmap node.color with
  | .error e => .error e
  | .ok val =>
    match get_color it.pal val with
    | .error e => .error e
    | .ok c => .ok { it with state := { it.state with color := c } }

/-- Method `eval_set_screen_color`. -/
def eval_set_screen_color (vmap : VarMap) (node : SetScreenColorNode)
    (it : Interpreter) : RuntimeResult Interpreter :=
  match eval_list_num_word vmap node.color with
  | .error e => .error e
  | .ok val =>
    match get_color it.pal val with
    | .error e => .error e
    | .ok c => .ok { it with state := { it.state with screen_color := c } }

/-- Method `eval_set_pos`: absent components keep the current coordinate. -/
def eval_set_pos (ops : FloatOps) (vmap : VarMap) (node : SetPositionNode)
    (it : Interpreter) : RuntimeResult Interpreter :=
  match node.x with
  | some xitem =>
    match eval_expr_num_word_as_number vmap xitem with
    | .error e => .error e
    | .ok new_x =>
      match node.y with
      | some yitem =>
        match eval_expr_num_word_as_number vmap yitem with
        | .error e => .error e
        | .ok new_y => .ok (move_to ops it ⟨new_x, new_y⟩)
      | none => .ok (move_to ops it ⟨new_x, it.state.pos.y⟩)
  | none =>
    match node.y with
    | some yitem =>
      match eval_expr_num_word_as_number vmap yitem with
      | .error e => .error e
      | .ok new_y => .ok (move_to ops it ⟨it.state.pos.x, new_y⟩)
    | none => .ok (move_to ops it ⟨it.state.pos.x, it.state.pos.y⟩)

/-- Result of a statement-level step.  In Rust the interpreter object, the
variable map and the already-sent render commands all survive an `Err`
return (only the `Result` is propagated), so the step returns all three
unconditionally. -/
abbrev Step : Type := Interpreter × VarMap × RuntimeResult Unit

mutual
/-- Method `run`: execute a node list in order, stopping at the first
error.  `fuel` bounds the call depth through user-defined functions only
(decremented solely in `eval_call`), making the Rust recursion
structural. -/
def run (ops : FloatOps) (fuel : ℕ) (frame : Frame) (fmap : FuncMap)
    (vmap : VarMap) (list : List Node) (it : Interpreter) : Step :=
  match list with
  | [] => (it, vmap, .ok ())
  | node :: rest =>
    match eval_node ops fuel frame fmap vmap node it with
    | (it₂, vmap₂, .ok _) => run ops fuel frame fmap vmap₂ rest it₂
    | err => err
termination_by (fuel, sizeOf list, 0, 0)

/-- Dispatch arm of `run` for a single node. -/
def eval_node (ops : FloatOps) (fuel : ℕ) (frame : Frame) (fmap : FuncMap)
    (vmap : VarMap) (node : Node) (it : Interpreter) : Step :=
  match node with
  | .assign n =>
    match eval_assign vmap n with
    | .ok vmap₂ => (it, vmap₂, .ok ())
    | .error e => (it, vmap, .error e)
  | .call n => eval_call ops fuel frame fmap vmap n it
  | .clean => (eval_clean it, vmap, .ok ())
  | .clearScreen => (eval_clear_screen ops it, vmap, .ok ())
  | .home => (eval_home ops it, vmap, .ok ())
  | .letStmt n =>
    match eval_let vmap n with
    | .ok vmap₂ => (it, vmap₂, .ok ())
    | .error e => (it, vmap, .error e)
  | .move n =>
    match eval_move ops vmap n it with
    | .ok it₂ => (it₂, vmap, .ok ())
    | .error e => (it, vmap, .error e)
  | .pen n => (eval_pen it n, vmap, .ok ())
  | .repeatStmt n => eval_repeat ops fuel frame fmap vmap n it
  | .rotate n =>
    match eval_rotate ops vmap n it with
    | .ok it₂ => (it₂, vmap, .ok ())
    | .error e => (it, vmap, .error e)
  | .setHeading n =>
    match eval_set_heading ops vmap n it with
    | .ok it₂ => (it₂, vmap, .ok ())
    | .error e => (it, vmap, .error e)
  | .setPosition n =>
    match eval_set_pos ops vmap n it with
    | .ok it₂ => (it₂, vmap, .ok ())
    | .error e => (it, vmap, .error e)
  | .setPenColor n =>
    match eval_set_pen_color vmap n it with
    | .ok it₂ => (it₂, vmap, .ok ())
    | .error e => (it, vmap, .error e)
  | .setScreenColor n =>
    match eval_set_screen_color vmap n it with
    | .ok it₂ => (it₂, vmap, .ok ())
    | .error e => (it, vmap, .error e)
termination_by (fuel, sizeOf node, 0, 0)

/-- Method `eval_call`: look up the function, run its body in a child frame
that inherits the caller's `repcount` and shares `fmap`/`vmap`. -/
def eval_call (ops : FloatOps) (fuel : ℕ) (frame : Frame) (fmap : FuncMap)
    (vmap : VarMap) (node : CallNode) (it : Interpreter) : Step :=
  match AList.lookup node.name fmap with
  | some func =>
    match fuel with
    | 0 => (it, vmap, .error .outOfFuel)
    | fuel₂ + 1 => run ops fuel₂ (Frame.mk frame.repcount) fmap vmap func.list it
  | none => (it, vmap, .error (.interpreter s!"no such function {node.name}"))
termination_by (fuel, sizeOf node, 0, 0)

/-- Method `eval_repeat`: evaluate the count as a number, cast it with
`as usize`, then run the body that many times in one child frame whose
`repcount` starts at 0 and is incremented before each iteration.  The
caller's frame is ignored (`_frame` in the source). -/
def eval_repeat (ops : FloatOps) (fuel : ℕ) (_frame : Frame) (fmap : FuncMap)
    (vmap : VarMap) (node : RepeatNode) (it : Interpreter) : Step :=
  match node with
  | .mk countExpr list =>
    match eval_expr_num_word_as_number vmap countExpr with
    | .error e => (it, vmap, .error e)
    | .ok count =>
      repeat_loop ops fuel fmap list count.asUsize (Frame.mk 0) vmap it
termination_by (fuel, sizeOf node, 0, 0)

/-- The `for _ in 0..count as usize` loop of `eval_repeat`, carrying the
mutable child frame. -/
def repeat_loop (ops : FloatOps) (fuel : ℕ) (fmap : FuncMap)
    (list : List Node) (n : ℕ) (child : Frame) (vmap : VarMap)
    (it : Interpreter) : Step :=
  match n with
  | 0 => (it, vmap, .ok ())
  | m + 1 =>
    let child₂ := Frame.mk (child.repcount + 1)
    match run ops fuel child₂ fmap vmap list it with
    | (it₂, vmap₂, .ok _) => repeat_loop ops fuel fmap list m child₂ vmap₂ it₂
    | err => err
termination_by (fuel, sizeOf list, 1, n)
end

/-- Parser output as consumed by the interpreter (`ParserOutput` of the
missing `interpreter_types.rs` revision: a node list and a function map). -/
structure ParserOutput where
  list : List Node
  fmap : FuncMap

/-- Method `Interpreter::go`: a fresh top-level frame with `repcount = 0`
and an empty variable map. -/
def go (ops : FloatOps) (fuel : ℕ) (input : ParserOutput) : Step :=
  run ops fuel (Frame.mk 0) input.fmap AList.empty input.list Interpreter.new

/-- Specification form of the repeat loop: run the body once for each
listed `repcount` value, in a frame carrying exactly that value, sharing
the function map, the variable map and the interpreter state. -/
def run_iters (ops : FloatOps) (fuel : ℕ) (fmap : FuncMap)
    (list : List Node) : List ℕ → VarMap → Interpreter → Step
  | [], vmap, it => (it, vmap, .ok ())
  | i :: rest, vmap, it =>
    match run ops fuel (Frame.mk i) fmap vmap list it with
    | (it₂, vmap₂, .ok _) => run_iters ops fuel fmap list rest vmap₂ it₂
    | err => err

end Interp

namespace Parser

/-
Embedding of `runtime/parser.rs` with its `parser_types.rs`.  The node
payload structs are inlined into the `ParserNode` constructors; Rust
variant names `Let`, `For` and `Repeat` are rendered `letStmt`, `forStmt`
and `repeatStmt`.
-/

/-- Directions (`Direction` in `parser_types.rs`). -/
inductive Direction where
  | left | backward | forward | right
deriving DecidableEq, Repr

/-- Math builtins (`MathOp` in `parser_types.rs`; never constructed by the
parser revision in the snapshot). -/
inductive MathOp where
  | atan | cos | log10 | ln | round | sin | sqrt
deriving DecidableEq, Repr

/-- Pen statements (`PenNode` in `parser_types.rs`). -/
inductive PenNode where
  | down | erase | paint | reverse | up
deriving DecidableEq, Repr

/-- AST nodes (`ParserNode` in `parser_types.rs`), payload structs inlined:
`binExpr a op b`, `call name args`, `forStmt var initial limit step list`,
`letStmt name val`, `math op arg`, `move distance direction`,
`random max`, `repeatStmt count list`, `rotate angle direction`,
`setPosition x y`. -/
inductive ParserNode where
  | binExpr : ParserNode → LexerOperator → ParserNode → ParserNode
  | call : String → LexerList → ParserNode
  | clean : ParserNode
  | clearScreen : ParserNode
  | fill : ParserNode
  | forStmt : String → ParserNode → ParserNode → ParserNode → List ParserNode → ParserNode
  | home : ParserNode
  | letStmt : String → ParserNode → ParserNode
  | list : List ParserNode → ParserNode
  | math : MathOp → ParserNode → ParserNode
  | move : ParserNode → Direction → ParserNode
  | number : F64 → ParserNode
  | pen : PenNode → ParserNode
  | placeholder : ParserNode
  | random : ParserNode → ParserNode
  | repcount : ParserNode
  | repeatStmt : ParserNode → List ParserNode → ParserNode
  | rotate : ParserNode → Direction → ParserNode
  | setHeading : ParserNode → ParserNode
  | setPenColor : ParserNode → ParserNode
  | setPosition : Option ParserNode → Option ParserNode → ParserNode
  | setScreenColor : ParserNode → ParserNode
  | showTurtle : Bool → ParserNode
  | word : String → ParserNode

/-- Function definition (`ParserFuncDef`). -/
structure ParserFuncDef where
  builtin : Bool
  num_args : ℕ
  list : List ParserNode

/-- Function map (`ParserFuncMap = HashMap<String, ParserFuncDef>`). -/
abbrev ParserFuncMap : Type := AList ParserFuncDef

/-- Parser output (`ParserOutput`). -/
structure ParserOutput where
  list : List ParserNode
  fmap : ParserFuncMap

/-- Symbol table tags (`SymbolTag`). -/
inductive SymbolTag where
  | func | var
deriving DecidableEq, Repr

/-- Debug rendering of a tag (`{:?}` in `check_symbol`'s message). -/
def SymbolTag.debugStr : SymbolTag → String
  | .func => "Func"
  | .var => "Var"

/-- Parser state (`Parser`): symbol table and function map. -/
structure Parser where
  smap : AList SymbolTag
  fmap : ParserFuncMap

/-- Constructor `Parser::new`: both maps start empty. -/
def Parser.new : Parser := { smap := AList.empty, fmap := AList.empty }

/-- Kernel-computable model of `str::to_lowercase` (ASCII case mapping;
every keyword the parser compares against is ASCII). -/
def to_lowercase (s : String) : String :=
  String.mk (s.data.map (fun c =>
    if c.isUpper then Char.ofNat (c.toNat + 32) else c))

/-- Token cursor (`ListIter`); `depth` exists in the source but is never
read or written after construction. -/
structure ListIter where
  list : LexerList
  idx : ℕ
  depth : ℕ

/-- Constructor `ListIter::new`. -/
def ListIter.new (l : LexerList) : ListIter := ⟨l, 0, 0⟩

/-- Method `is_empty`. -/
def ListIter.is_empty (it : ListIter) : Bool := decide (it.list.length ≤ it.idx)

/-- Method `expect`: fail unless `n` more items are available. -/
def ListIter.expect (it : ListIter) (n : ℕ) : RuntimeResult Unit :=
  if it.list.length < it.idx + n then .error (.parser s!"{n} items expected")
  else .ok ()

/-- Method `next`: Rust indexes `self.list[self.idx]`, which panics when
the iterator is exhausted. -/
def ListIter.next (it : ListIter) : RuntimeResult (LexerAny × ListIter) :=
  match it.list.get? it.idx with
  | some tok => .ok (tok, { it with idx := it.idx + 1 })
  | none => .error (.rustPanic "index out of bounds")

/-- Method `expect_assign`. -/
def ListIter.expect_assign (it : ListIter) : RuntimeResult ListIter :=
  match it.next with
  | .error e => .error e
  | .ok (.lexerOperator .assign, it2) => .ok it2
  | .ok _ => .error (.parser "expected an assignment")

/-- Method `check_symbol`: an existing entry must carry the same tag; a
missing entry is inserted.  The table is never overwritten. -/
def check_symbol (p : Parser) (name : String) (tag : SymbolTag) :
    RuntimeResult Parser :=
  match AList.lookup name p.smap with
  | some existing_tag =>
    if existing_tag = tag then .ok p
    else
      .error (.parser
        ("symbol \"" ++ name ++ "\" already exists with tag " ++ existing_tag.debugStr))
  | none => .ok { p with smap := AList.insert name tag p.smap }

/-- Method `get_word`. -/
def get_word (it : ListIter) : RuntimeResult (String × ListIter) :=
  match it.next with
  | .error e => .error e
  | .ok (.lexerWord word, it2) => .ok (word, it2)
  | .ok _ => .error (.parser "expected a word")

/-- Method `get_block`. -/
def get_block (it : ListIter) : RuntimeResult (LexerList × ListIter) :=
  match it.next with
  | .error e => .error e
  | .ok (.lexerBlock block, it2) => .ok (block, it2)
  | .ok _ => .error (.parser "expected a block")

/-- Method `get_list`. -/
def get_list (it : ListIter) : RuntimeResult (LexerList × ListIter) :=
  match it.next with
  | .error e => .error e
  | .ok (.lexerList list, it2) => .ok (list, it2)
  | .ok _ => .error (.parser "expected a list")

/-- Method `get_expr`: the next token must be an expression shape. -/
def get_expr (it : ListIter) : RuntimeResult (LexerAny × ListIter) :=
  match it.next with
  | .error e => .error e
  | .ok (tok, it2) =>
    match tok with
    | .lexerBinExpr a op b => .ok (.lexerBinExpr a op b, it2)
    | .lexerList list => .ok (.lexerList list, it2)
    | .lexerNumber num => .ok (.lexerNumber num, it2)
    | .lexerWord word => .ok (.lexerWord word, it2)
    | _ => .error (.parser "expected an expression")

/-- Method `get_args`: read `num_args` expression tokens. -/
def get_args (it : ListIter) (num_args : ℕ) :
    RuntimeResult (LexerList × ListIter) :=
  match num_args with
  | 0 => .ok ([], it)
  | n + 1 =>
    match get_expr it with
    | .error e => .error e
    | .ok (arg, it2) =>
      match get_args it2 n with
      | .error e => .error e
      | .ok (args, it3) => .ok (arg :: args, it3)

/-- Method `parse_call` (not recursive: it only reads argument tokens).
`fmap.get(name).unwrap()` panics when the name is tagged `Func` but absent
from the function map (as happens for a recursive call inside a function
body). -/
def parse_call (p : Parser) (iter : ListIter) (name : String) :
    RuntimeResult (ParserNode × Parser × ListIter) :=
  match AList.lookup name p.fmap with
  | none => .error (.rustPanic "called unwrap on a None value")
  | some func_def =>
    match iter.expect func_def.num_args with
    | .error e => .error e
    | .ok _ =>
      match get_args iter func_def.num_args with
      | .error e => .error e
      | .ok (args, it2) => .ok (.call name args, p, it2)

mutual
/-- Method `parse`: consume statements while tokens remain.  `fuel` makes
the recursion through `parse_word` structural; every mutual call
decrements it. -/
def parse (fuel : ℕ) (p : Parser) (iter : ListIter) :
    RuntimeResult (List ParserNode × Parser × ListIter) :=
  match fuel with
  | 0 => .error .outOfFuel
  | f + 1 =>
    if iter.is_empty then .ok ([], p, iter)
    else
      match get_word iter with
      | .error e => .error e
      | .ok (word, it2) =>
        match parse_word f p it2 word with
        | .error e => .error e
        | .ok (node, p2, it3) =>
          match parse f p2 it3 with
          | .error e => .error e
          | .ok (rest, p3, it4) => .ok (node :: rest, p3, it4)

/-- Method `parse_word`: lowercased keyword dispatch; non-keywords fall
through to `parse_other`. -/
def parse_word (fuel : ℕ) (p : Parser) (iter : ListIter) (word : String) :
    RuntimeResult (ParserNode × Parser × ListIter) :=
  match fuel with
  | 0 => .error .outOfFuel
  | f + 1 =>
    match to_lowercase word with
    | "bk" | "backward" => parse_backward f p iter
    | "clean" => .ok (.clean, p, iter)
    | "cs" | "clearscreen" => .ok (.clearScreen, p, iter)
    | "fd" | "forward" => parse_forward f p iter
    | "fn" => parse_fn f p iter
    | "ht" | "hideturtle" => .ok (.showTurtle false, p, iter)
    | "home" => .ok (.home, p, iter)
    | "let" => parse_let f p iter
    | "lt" | "left" => parse_left f p iter
    | "pd" | "pendown" => .ok (.pen .down, p, iter)
    | "pu" | "penup" => .ok (.pen .up, p, iter)
    | "random" => parse_random f p iter
    | "repcount" => .ok (.repcount, p, iter)
    | "repeat" => parse_repeat f p iter
    | "rt" | "right" => parse_right f p iter
    | "seth" | "setheading" => parse_set_heading f p iter
    | "setpc" | "setpencolor" => parse_set_pen_color f p iter
    | "setpos" => parse_set_pos f p iter
    | "setsc" | "setscreencolor" => parse_set_screen_color f p iter
    | "setxy" => parse_setxy f p iter
    | "setx" => parse_setx f p iter
    | "sety" => parse_sety f p iter
    | "st" | "showturtle" => .ok (.showTurtle true, p, iter)
    | _ => parse_other f p iter word

/-- Method `parse_other`: resolve a non-keyword word via the symbol table.
A `Func` name becomes a call; a `Var` name becomes a `Word` node (a
variable reference) with nothing further consumed; anything else is an
error. -/
def parse_other (fuel : ℕ) (p : Parser) (iter : ListIter) (word : String) :
    RuntimeResult (ParserNode × Parser × ListIter) :=
  match fuel with
  | 0 => .error .outOfFuel
  | _ + 1 =>
    match AList.lookup word p.smap with
    | some .func => parse_call p iter word
    | some .var => .ok (.word word, p, iter)
    | none => .error (.parser ("unrecognized symbol \"" ++ word ++ "\""))

/-- Method `parse_backward`. -/
def parse_backward (fuel : ℕ) (p : Parser) (iter : ListIter) :
    RuntimeResult (ParserNode × Parser × ListIter) :=
  match fuel with
  | 0 => .error .outOfFuel
  | f + 1 =>
    match iter.expect 1 with
    | .error e => .error e
    | .ok _ =>
      match get_expr iter with
      | .error e => .error e
      | .ok (distance, it2) =>
        match parse_expr f p it2 distance with
        | .error e => .error e
        | .ok (distance_node, p2, it3) =>
          .ok (.move distance_node .backward, p2, it3)

/-- Method `parse_bin_expr`: parse both children (which may consume
further tokens from the surrounding iterator when a child is a word). -/
def parse_bin_expr (fuel : ℕ) (p : Parser) (iter : ListIter)
    (a : LexerAny) (op : LexerOperator) (b : LexerAny) :
    RuntimeResult (ParserNode × Parser × ListIter) :=
  match fuel with
  | 0 => .error .outOfFuel
  | f + 1 =>
    match parse_expr f p iter a with
    | .error e => .error e
    | .ok (anode, p2, it2) =>
      match parse_expr f p2 it2 b with
      | .error e => .error e
      | .ok (bnode, p3, it3) => .ok (.binExpr anode op bnode, p3, it3)

/-- Method `parse_expr`: dispatch on the token shape. -/
def parse_expr (fuel : ℕ) (p : Parser) (iter : ListIter) (expr : LexerAny) :
    RuntimeResult (ParserNode × Parser × ListIter) :=
  match fuel with
  | 0 => .error .outOfFuel
  | f + 1 =>
    match expr with
    | .lexerBinExpr a op b => parse_bin_expr f p iter a op b
    | .lexerNumber num => .ok (.number num, p, iter)
    | .lexerList list =>
      match parse_list f p list with
      | .error e => .error e
      | .ok (node, p2) => .ok (node, p2, iter)
    | .lexerWord word => parse_word f p iter word
    | _ => .error (.parser "failed to parse expression")

/-- Method `parse_fn`: register the name as `Func`, parse the block with a
fresh iterator, store the body with `num_args = 0`, and emit a
placeholder node. -/
def parse_fn (fuel : ℕ) (p : Parser) (iter : ListIter) :
    RuntimeResult (ParserNode × Parser × ListIter) :=
  match fuel with
  | 0 => .error .outOfFuel
  | f + 1 =>
    match iter.expect 2 with
    | .error e => .error e
    | .ok _ =>
      match get_word iter with
      | .error e => .error e
      | .ok (name, it2) =>
        match check_symbol p name .func with
        | .error e => .error e
        | .ok p2 =>
          match get_block it2 with
          | .error e => .error e
          | .ok (block, it3) =>
            match parse f p2 (ListIter.new block) with
            | .error e => .error e
            | .ok (list, p3, _) =>
              let func : ParserFuncDef := ⟨false, 0, list⟩
              .ok (.placeholder,
                   { p3 with fmap := AList.insert name func p3.fmap }, it3)

/-- Method `parse_forward`. -/
def parse_forward (fuel : ℕ) (p : Parser) (iter : ListIter) :
    RuntimeResult (ParserNode × Parser × ListIter) :=
  match fuel with
  | 0 => .error .outOfFuel
  | f + 1 =>
    match iter.expect 1 with
    | .error e => .error e
    | .ok _ =>
      match get_expr iter with
      | .error e => .error e
      | .ok (distance, it2) =>
        match parse_expr f p it2 distance with
        | .error e => .error e
        | .ok (distance_node, p2, it3) =>
          .ok (.move distance_node .forward, p2, it3)

/-- Method `parse_let`: word, `=`, expression; the name registers as `Var`. -/
def parse_let (fuel : ℕ) (p : Parser) (iter : ListIter) :
    RuntimeResult (ParserNode × Parser × ListIter) :=
  match fuel with
  | 0 => .error .outOfFuel
  | f + 1 =>
    match iter.expect 3 with
    | .error e => .error e
    | .ok _ =>
      match get_word iter with
      | .error e => .error e
      | .ok (var, it2) =>
        match check_symbol p var .var with
        | .error e => .error e
        | .ok p2 =>
          match it2.expect_assign with
          | .error e => .error e
          | .ok it3 =>
            match it3.next with
            | .error e => .error e
            | .ok (rhs, it4) =>
              match parse_expr f p2 it4 rhs with
              | .error e => .error e
              | .ok (rhs_node, p3, it5) => .ok (.letStmt var rhs_node, p3, it5)

/-- Method `parse_left`. -/
def parse_left (fuel : ℕ) (p : Parser) (iter : ListIter) :
    RuntimeResult (ParserNode × Parser × ListIter) :=
  match fuel with
  | 0 => .error .outOfFuel
  | f + 1 =>
    match iter.expect 1 with
    | .error e => .error e
    | .ok _ =>
      match get_expr iter with
      | .error e => .error e
      | .ok (a, it2) =>
        match parse_expr f p it2 a with
        | .error e => .error e
        | .ok (angle_node, p2, it3) => .ok (.rotate angle_node .left, p2, it3)

/-- Method `parse_list`: parse the contents of a list token with its own
iterator into a `List` node. -/
def parse_list (fuel : ℕ) (p : Parser) (list : LexerList) :
    RuntimeResult (ParserNode × Parser) :=
  match fuel with
  | 0 => .error .outOfFuel
  | f + 1 =>
    match parse_list_loop f p (ListIter.new list) with
    | .error e => .error e
    | .ok (nodes, p2, _) => .ok (.list nodes, p2)

/-- The while-loop inside `parse_list`. -/
def parse_list_loop (fuel : ℕ) (p : Parser) (iter : ListIter) :
    RuntimeResult (List ParserNode × Parser × ListIter) :=
  match fuel with
  | 0 => .error .outOfFuel
  | f + 1 =>
    if iter.is_empty then .ok ([], p, iter)
    else
      match get_expr iter with
      | .error e => .error e
      | .ok (expr, it2) =>
        match parse_expr f p it2 expr with
        | .error e => .error e
        | .ok (node, p2, it3) =>
          match parse_list_loop f p2 it3 with
          | .error e => .error e
          | .ok (nodes, p3, it4) => .ok (node :: nodes, p3, it4)

/-- Method `parse_random`. -/
def parse_random (fuel : ℕ) (p : Parser) (iter : ListIter) :
    RuntimeResult (ParserNode × Parser × ListIter) :=
  match fuel with
  | 0 => .error .outOfFuel
  | f + 1 =>
    match iter.expect 1 with
    | .error e => .error e
    | .ok _ =>
      match iter.next with
      | .error e => .error e
      | .ok (mx, it2) =>
        match parse_expr f p it2 mx with
        | .error e => .error e
        | .ok (max_node, p2, it3) => .ok (.random max_node, p2, it3)

/-- Method `parse_repeat`: an expression and a block. -/
def parse_repeat (fuel : ℕ) (p : Parser) (iter : ListIter) :
    RuntimeResult (ParserNode × Parser × ListIter) :=
  match fuel with
  | 0 => .error .outOfFuel
  | f + 1 =>
    match iter.expect 2 with
    | .error e => .error e
    | .ok _ =>
      match get_expr iter with
      | .error e => .error e
      | .ok (count, it2) =>
        match parse_expr f p it2 count with
        | .error e => .error e
        | .ok (count_node, p2, it3) =>
          match get_block it3 with
          | .error e => .error e
          | .ok (block, it4) =>
            match parse f p2 (ListIter.new block) with
            | .error e => .error e
            | .ok (node_list, p3, _) =>
              .ok (.repeatStmt count_node node_list, p3, it4)

/-- Method `parse_right`. -/
def parse_right (fuel : ℕ) (p : Parser) (iter : ListIter) :
    RuntimeResult (ParserNode × Parser × ListIter) :=
  match fuel with
  | 0 => .error .outOfFuel
  | f + 1 =>
    match iter.expect 1 with
    | .error e => .error e
    | .ok _ =>
      match get_expr iter with
      | .error e => .error e
      | .ok (a, it2) =>
        match parse_expr f p it2 a with
        | .error e => .error e
        | .ok (angle_node, p2, it3) => .ok (.rotate angle_node .right, p2, it3)

/-- Method `parse_set_heading`. -/
def parse_set_heading (fuel : ℕ) (p : Parser) (iter : ListIter) :
    RuntimeResult (ParserNode × Parser × ListIter) :=
  match fuel with
  | 0 => .error .outOfFuel
  | f + 1 =>
    match iter.expect 1 with
    | .error e => .error e
    | .ok _ =>
      match get_expr iter with
      | .error e => .error e
      | .ok (a, it2) =>
        match parse_expr f p it2 a with
        | .error e => .error e
        | .ok (angle_node, p2, it3) => .ok (.setHeading angle_node, p2, it3)

/-- Method `parse_set_pen_color`. -/
def parse_set_pen_color (fuel : ℕ) (p : Parser) (iter : ListIter) :
    RuntimeResult (ParserNode × Parser × ListIter) :=
  match fuel with
  | 0 => .error .outOfFuel
  | f + 1 =>
    match iter.expect 1 with
    | .error e => .error e
    | .ok _ =>
      match get_expr iter with
      | .error e => .error e
      | .ok (color, it2) =>
        match parse_expr f p it2 color with
        | .error e => .error e
        | .ok (color_node, p2, it3) => .ok (.setPenColor color_node, p2, it3)

/-- Method `parse_set_pos`: one list token, parsed like `setxy` with the
list's own iterator. -/
def parse_set_pos (fuel : ℕ) (p : Parser) (iter : ListIter) :
    RuntimeResult (ParserNode × Parser × ListIter) :=
  match fuel with
  | 0 => .error .outOfFuel
  | f + 1 =>
    match iter.expect 1 with
    | .error e => .error e
    | .ok _ =>
      match get_list iter with
      | .error e => .error e
      | .ok (pos, it2) =>
        match parse_setxy f p (ListIter.new pos) with
        | .error e => .error e
        | .ok (node, p2, _) => .ok (node, p2, it2)

/-- Method `parse_set_screen_color`. -/
def parse_set_screen_color (fuel : ℕ) (p : Parser) (iter : ListIter) :
    RuntimeResult (ParserNode × Parser × ListIter) :=
  match fuel with
  | 0 => .error .outOfFuel
  | f + 1 =>
    match iter.expect 1 with
    | .error e => .error e
    | .ok _ =>
      match get_expr iter with
      | .error e => .error e
      | .ok (color, it2) =>
        match parse_expr f p it2 color with
        | .error e => .error e
        | .ok (color_node, p2, it3) => .ok (.setScreenColor color_node, p2, it3)

/-- Method `parse_setxy`: two expressions, both coordinates present. -/
def parse_setxy (fuel : ℕ) (p : Parser) (iter : ListIter) :
    RuntimeResult (ParserNode × Parser × ListIter) :=
  match fuel with
  | 0 => .error .outOfFuel
  | f + 1 =>
    match iter.expect 2 with
    | .error e => .error e
    | .ok _ =>
      match get_expr iter with
      | .error e => .error e
      | .ok (x, it2) =>
        match parse_expr f p it2 x with
        | .error e => .error e
        | .ok (x_node, p2, it3) =>
          match get_expr it3 with
          | .error e => .error e
          | .ok (y, it4) =>
            match parse_expr f p2 it4 y with
            | .error e => .error e
            | .ok (y_node, p3, it5) =>
              .ok (.setPosition (some x_node) (some y_node), p3, it5)

/-- Method `parse_setx`. -/
def parse_setx (fuel : ℕ) (p : Parser) (iter : ListIter) :
    RuntimeResult (ParserNode × Parser × ListIter) :=
  match fuel with
  | 0 => .error .outOfFuel
  | f + 1 =>
    match iter.expect 1 with
    | .error e => .error e
    | .ok _ =>
      match get_expr iter with
      | .error e => .error e
      | .ok (x, it2) =>
        match parse_expr f p it2 x with
        | .error e => .error e
        | .ok (x_node, p2, it3) =>
          .ok (.setPosition (some x_node) none, p2, it3)

/-- Method `parse_sety`. -/
def parse_sety (fuel : ℕ) (p : Parser) (iter : ListIter) :
    RuntimeResult (ParserNode × Parser × ListIter) :=
  match fuel with
  | 0 => .error .outOfFuel
  | f + 1 =>
    match iter.expect 1 with
    | .error e => .error e
    | .ok _ =>
      match get_expr iter with
      | .error e => .error e
      | .ok (y, it2) =>
        match parse_expr f p it2 y with
        | .error e => .error e
        | .ok (y_node, p2, it3) =>
          .ok (.setPosition none (some y_node), p2, it3)
end

/-- Method `Parser::go`. -/
def go (fuel : ℕ) (input : LexerList) : RuntimeResult ParserOutput :=
  match parse fuel Parser.new (ListIter.new input) with
  | .error e => .error e
  | .ok (list, p, _) => .ok ⟨list, p.fmap⟩

/-- Symbol-table monotonicity between two parser states: every registered
name keeps exactly its tag. -/
def SmapPreserves (p q : Parser) : Prop :=
  ∀ name tag, AList.lookup name p.smap = some tag →
    AList.lookup name q.smap = some tag

end Parser

namespace Lexer

/-
Embedding of `runtime/lexer.rs`.  The character iterator becomes an
explicit `List Char` and `self.idx` is threaded through.  Rust's
Unicode-aware `char::is_whitespace` / `char::is_alphanumeric` are
approximated by `Char.isWhitespace` / `Char.isAlphanum`; no claim
involves non-ASCII input.
-/

/-- Helper: a single apostrophe, used in a formatted error message. -/
def squote : String := String.mk [Char.ofNat 39]

/-- Value of a digit string. -/
def digitsVal (cs : List Char) : ℕ :=
  cs.foldl (fun acc c => acc * 10 + (c.toNat - 48)) 0

/-- Model of Rust `f64::from_str` on the symbol shapes the lexer can
accumulate with its `number` flag set (an optional leading minus, then
digits with embedded dots): `[-] digits [. digits]` with at least one
digit parses; a second dot fails. -/
def parse_f64 (cs : List Char) : Option ℚ :=
  let core : List Char → Option ℚ := fun s =>
    let intPart := s.takeWhile (fun c => c.isDigit)
    let rest := s.dropWhile (fun c => c.isDigit)
    match rest with
    | [] => if intPart.isEmpty then none else some (digitsVal intPart)
    | c :: frac =>
      if c = Char.ofNat 46 ∧ frac.all (fun d => d.isDigit) ∧
          (¬ intPart.isEmpty ∨ ¬ frac.isEmpty) then
        some ((digitsVal intPart : ℚ) +
          (digitsVal frac : ℚ) / ((10 : ℚ) ^ frac.length))
      else none
  match cs with
  | c :: rest => if c = Char.ofNat 45 then (core rest).map (fun q => -q) else core cs
  | [] => none

/-- Lexer accumulator (`LexerState`). -/
structure LexerState where
  list : LexerList
  symbol : List Char
  number : Bool

/-- Constructor `LexerState::new`. -/
def LexerState.new : LexerState := ⟨[], [], false⟩

/-- Method `LexerState::delimit`: flush the symbol buffer as a number or a
word; a failed numeric parse is a lexer error. -/
def delimit (st : LexerState) (idx : ℕ) : RuntimeResult LexerState :=
  if st.symbol.isEmpty then .ok { st with symbol := [], number := false }
  else if st.number then
    match parse_f64 st.symbol with
    | some val =>
      .ok ⟨st.list ++ [.lexerNumber (F64.num val)], [], false⟩
    | none =>
      .error (.lexer (s!"{idx}: failed to parse number \"" ++
        String.mk st.symbol ++ "\""))
  else .ok ⟨st.list ++ [.lexerWord (String.mk st.symbol)], [], false⟩

/-- Static method `Lexer::operator`. -/
def operator (c : Char) (idx : ℕ) : RuntimeResult LexerOperator :=
  if c = '+' then .ok .add
  else if c = '=' then .ok .assign
  else if c = '-' then .ok .subtract
  else if c = '*' then .ok .multiply
  else if c = '/' then .ok .divide
  else if c = '%' then .ok .modulo
  else .error (.lexer (s!"{idx}: unrecognized operator " ++
    squote ++ String.mk [c] ++ squote))

/-- Static method `Lexer::munch`: consume through end-of-line, counting
the characters before the newline. -/
def munch : List Char → ℕ × List Char
  | [] => (0, [])
  | c :: rest =>
    if c = '\n' ∨ c = '\r' then (0, rest)
    else
      let (n, r) := munch rest
      (n + 1, r)

/-- Static method `Lexer::get_expression`: expression-shaped tokens only. -/
def get_expression (item : Option LexerAny) (idx : ℕ) :
    RuntimeResult LexerAny :=
  match item with
  | some (.lexerBinExpr a op b) => .ok (.lexerBinExpr a op b)
  | some (.lexerList list) => .ok (.lexerList list)
  | some (.lexerNumber num) => .ok (.lexerNumber num)
  | some (.lexerWord word) => .ok (.lexerWord word)
  | _ => .error (.lexer s!"{idx}: expected an expression")

/-- Static method `Lexer::get_op_item`. -/
def get_op_item (item : Option LexerAny) (idx : ℕ) :
    RuntimeResult LexerOperator :=
  match item with
  | some (.lexerOperator op) => .ok op
  | _ => .error (.lexer s!"{idx}: expected an operator")

mutual
/-- Method `Lexer::lex` (its `while let` loop, carrying the `LexerState`).
Returns the token list, the unconsumed characters, and the updated
character index.  `fuel` decreases at every step; it dominates the source,
which consumes at least one character per iteration. -/
def lex_loop (fuel : ℕ) (st : LexerState) (chars : List Char) (idx : ℕ) :
    RuntimeResult (LexerList × List Char × ℕ) :=
  match fuel with
  | 0 => .error .outOfFuel
  | f + 1 =>
    match chars with
    | [] =>
      match delimit st idx with
      | .error e => .error e
      | .ok st₂ => .ok (st₂.list, [], idx)
    | c :: rest =>
      if c = '#' then
        match delimit st idx with
        | .error e => .error e
        | .ok st₂ =>
          let (n, rest₂) := munch rest
          lex_loop f st₂ rest₂ (idx + n + 1)
      else if c = '{' then
        match delimit st idx with
        | .error e => .error e
        | .ok st₂ =>
          match lex_loop f LexerState.new rest idx with
          | .error e => .error e
          | .ok (block, rest₂, idx₂) =>
            lex_loop f { st₂ with list := st₂.list ++ [.lexerBlock block] }
              rest₂ (idx₂ + 1)
      else if c = '}' then
        match delimit st idx with
        | .error e => .error e
        | .ok st₂ =>
          match delimit st₂ idx with
          | .error e => .error e
          | .ok st₃ => .ok (st₃.list, rest, idx)
      else if c = '[' then
        match delimit st idx with
        | .error e => .error e
        | .ok st₂ =>
          match lex_loop f LexerState.new rest idx with
          | .error e => .error e
          | .ok (inner, rest₂, idx₂) =>
            lex_loop f { st₂ with list := st₂.list ++ [.lexerList inner] }
              rest₂ (idx₂ + 1)
      else if c = ']' then
        match delimit st idx with
        | .error e => .error e
        | .ok st₂ =>
          match delimit st₂ idx with
          | .error e => .error e
          | .ok st₃ => .ok (st₃.list, rest, idx)
      else if c = '(' then
        match delimit st idx with
        | .error e => .error e
        | .ok st₂ =>
          match get_bin_expr f rest idx with
          | .error e => .error e
          | .ok (a, op, b, rest₂, idx₂) =>
            lex_loop f
              { st₂ with list := st₂.list ++ [.lexerBinExpr a op b] }
              rest₂ (idx₂ + 1)
      else if c = ')' then
        match delimit st idx with
        | .error e => .error e
        | .ok st₂ =>
          match delimit st₂ idx with
          | .error e => .error e
          | .ok st₃ => .ok (st₃.list, rest, idx)
      else if c = '-' then
        match delimit st idx with
        | .error e => .error e
        | .ok st₂ =>
          match rest.head? with
          | some next_c =>
            if next_c.isDigit then
              lex_loop f { st₂ with symbol := st₂.symbol ++ [c], number := true }
                rest idx
            else
              match operator c idx with
              | .error e => .error e
              | .ok op =>
                lex_loop f
                  { st₂ with list := st₂.list ++ [.lexerOperator op] }
                  rest (idx + 1)
          | none =>
            match operator c idx with
            | .error e => .error e
            | .ok op =>
              lex_loop f { st₂ with list := st₂.list ++ [.lexerOperator op] }
                rest (idx + 1)
      else if c = '+' ∨ c = '*' ∨ c = '/' ∨ c = '=' ∨ c = '%' then
        match delimit st idx with
        | .error e => .error e
        | .ok st₂ =>
          match operator c idx with
          | .error e => .error e
          | .ok op =>
            lex_loop f { st₂ with list := st₂.list ++ [.lexerOperator op] }
              rest (idx + 1)
      else if c = Char.ofNat 46 then
        if !st.number then .error (.lexer s!"{idx}: unexpected period")
        else lex_loop f { st with symbol := st.symbol ++ [c] } rest (idx + 1)
      else if c.isWhitespace then
        match delimit st idx with
        | .error e => .error e
        | .ok st₂ => lex_loop f st₂ rest (idx + 1)
      else if c.isDigit then
        lex_loop f
          { st with
            symbol := st.symbol ++ [c]
            number := if st.symbol.isEmpty then true else st.number }
          rest (idx + 1)
      else if c.isAlphanum then
        lex_loop f { st with symbol := st.symbol ++ [c], number := false }
          rest (idx + 1)
      else
        .error (.lexer (s!"{idx}: unrecognized character " ++
          squote ++ String.mk [c] ++ squote))

/-- Method `Lexer::get_bin_expr`: recursively lex the parenthesized
content, then read exactly expression, operator, expression from it. -/
def get_bin_expr (fuel : ℕ) (chars : List Char) (idx : ℕ) :
    RuntimeResult (LexerAny × LexerOperator × LexerAny × List Char × ℕ) :=
  match fuel with
  | 0 => .error .outOfFuel
  | f + 1 =>
    match lex_loop f LexerState.new chars idx with
    | .error e => .error e
    | .ok (expr_list, rest, idx₂) =>
      match get_expression (expr_list.get? 0) idx₂ with
      | .error e => .error e
      | .ok a =>
        match get_op_item (expr_list.get? 1) idx₂ with
        | .error e => .error e
        | .ok op =>
          match get_expression (expr_list.get? 2) idx₂ with
          | .error e => .error e
          | .ok b => .ok (a, op, b, rest, idx₂)
end

/-- Nested list token tree of a given depth (the lex result of
`replicate d '[' ++ replicate d ']'`). -/
def deep : ℕ → LexerList
  | 0 => []
  | d + 1 => [.lexerList (deep d)]

/-- Method `Lexer::go` (`Lexer::new` starts the index at 1). -/
def go (fuel : ℕ) (input : String) : RuntimeResult LexerList :=
  match lex_loop fuel LexerState.new input.data 1 with
  | .error e => .error e
  | .ok (list, _, _) => .ok list

end Lexer

namespace Graphics

/-
Embedding of `graphics/mod.rs` with the pixel-buffer helpers of
`model/pixbuf.rs`.  The byte vector becomes a total function from byte
index to byte (all indices written through these helpers are in bounds,
guarded by `contains`).  The queue of `druid::Point`s holds only exact
small integers, modelled as `ℤ × ℤ`.
-/

/-- Modelled from the spec: the canvas dimensions `DIMS` live in
`common/constants.rs`, which is absent from the snapshot; spec §6 fixes
the canvas at 640×480. -/
def WIDTH : ℕ := 640

/-- Modelled from the spec: see `WIDTH`. -/
def HEIGHT : ℕ := 480

/-- The RGBA byte store of `PixBuf`. -/
def Bytes : Type := ℕ → Fin 256

/-- Byte index of a pixel (`(y * width + x) * 4`). -/
def byte_idx (x y : ℕ) : ℕ := (y * WIDTH + x) * 4

/-- Method `PixBuf::read_xy`: read four bytes as an RGBA color. -/
def read_xy (bytes : Bytes) (x y : ℕ) : Color :=
  ⟨bytes (byte_idx x y), bytes (byte_idx x y + 1),
   bytes (byte_idx x y + 2), bytes (byte_idx x y + 3)⟩

/-- Single byte store. -/
def write_byte (bytes : Bytes) (i : ℕ) (v : Fin 256) : Bytes :=
  fun j => if j = i then v else bytes j

/-- Method `PixBuf::write_xy` (via `write_xy_inner`): store the four RGBA
bytes of `color`. -/
def write_xy (bytes : Bytes) (x y : ℕ) (color : Color) : Bytes :=
  write_byte
    (write_byte
      (write_byte
        (write_byte bytes (byte_idx x y) color.r)
        (byte_idx x y + 1) color.g)
      (byte_idx x y + 2) color.b)
    (byte_idx x y + 3) color.a

/-- Method `PixBuf::contains` (the revision `flood_fill` calls takes
signed coordinates, so that a neighbor left of column zero is rejected). -/
def contains (x y : ℤ) : Bool :=
  0 ≤ x && x < (WIDTH : ℤ) && 0 ≤ y && y < (HEIGHT : ℤ)

/-- Modelled from the spec: `PixBuf::screen_xy` of the revision
`flood_fill` calls is absent; the spec (§3) and the identical helper in
`view/canvas.rs` give `(x + W/2, y + H/2)`. -/
def screen_xy (x y : ℤ) : ℤ × ℤ :=
  (x + (WIDTH : ℤ) / 2, y + (HEIGHT : ℤ) / 2)

/-- The four neighbors pushed by `flood_fill`, in push order (left, right,
up, down), each guarded by `contains`. -/
def nbrs (p : ℤ × ℤ) : List (ℤ × ℤ) :=
  [(p.1 - 1, p.2), (p.1 + 1, p.2), (p.1, p.2 - 1), (p.1, p.2 + 1)]

/-- The BFS loop of `flood_fill`: pop from the front; a pixel still equal
to the start color is overwritten with the fill color and its in-bounds
neighbors are pushed to the back.  The source loops until the queue is
empty; `fuel` makes that recursion structural and `flood_fill` passes a
bound proved sufficient. -/
def bfs (start fill : Color) : ℕ → List (ℤ × ℤ) → Bytes → Bytes
  | 0, _, bytes => bytes
  | _ + 1, [], bytes => bytes
  | f + 1, node :: rest, bytes =>
    if read_xy bytes node.1.toNat node.2.toNat = start then
      bfs start fill f
        (rest ++ (nbrs node).filter (fun q => contains q.1 q.2))
        (write_xy bytes node.1.toNat node.2.toNat fill)
    else
      bfs start fill f rest bytes

/-- Function `flood_fill(pixels, pos, color)`. -/
def flood_fill (bytes : Bytes) (pos : Interp.Point) (color : Color) : Bytes :=
  let s := screen_xy pos.x.asI32 pos.y.neg.asI32
  if ¬ contains s.1 s.2 then bytes
  else
    let start_color := read_xy bytes s.1.toNat s.2.toNat
    if start_color = color then bytes
    else bfs start_color color (4 * WIDTH * HEIGHT + 1) [s] bytes

/-- Pixel read at signed coordinates (as `flood_fill` reads its queue
entries: `node.x as usize`). -/
def readPx (b : Bytes) (p : ℤ × ℤ) : Color := read_xy b p.1.toNat p.2.toNat

/-- Pixel write at signed coordinates. -/
def writePx (b : Bytes) (p : ℤ × ℤ) (c : Color) : Bytes :=
  write_xy b p.1.toNat p.2.toNat c

/-- Pixels 4-connected to the start pixel through in-bounds pixels whose
original color equals the start color (the start pixel itself must be in
bounds; the endpoint need not match the start color). -/
inductive Reach (bytes : Bytes) (start : Color) (s : ℤ × ℤ) : (ℤ × ℤ) → Prop where
  | start (h : contains s.1 s.2 = true) : Reach bytes start s s
  | step {p q : ℤ × ℤ} (hp : Reach bytes start s p)
      (hcol : readPx bytes p = start)
      (hq : q ∈ nbrs p) (hcq : contains q.1 q.2 = true) : Reach bytes start s q

/-- Path from `u` to `p` through 4-neighbor steps whose every interior
node is in the original start color and not yet written (`∉ ws`). -/
inductive PathW (bytes : Bytes) (start : Color) (ws : List (ℤ × ℤ)) :
    (ℤ × ℤ) → (ℤ × ℤ) → Prop where
  | refl (p : ℤ × ℤ) : PathW bytes start ws p p
  | step {u q p : ℤ × ℤ} (hcol : readPx bytes u = start) (hw : u ∉ ws)
      (hn : q ∈ nbrs u) (hc : contains q.1 q.2 = true)
      (hp : PathW bytes start ws q p) : PathW bytes start ws u p

/-- The in-bounds pixels of the original buffer carrying the start
color. -/
@[irreducible] def startPixels (bytes : Bytes) (start : Color) : Finset (ℤ × ℤ) :=
  (((Finset.range WIDTH) ×ˢ (Finset.range HEIGHT)).image
    (fun ab => ((ab.1 : ℤ), (ab.2 : ℤ)))).filter
    (fun p => readPx bytes p = start)

/-- Start-colored pixels not yet written: the decreasing measure of the
BFS. -/
def remaining (bytes : Bytes) (start : Color) (ws : List (ℤ × ℤ)) : ℕ :=
  ((startPixels bytes start).filter (fun p => p ∉ ws)).card

/-- Loop invariant of the BFS in `flood_fill`, over the original buffer
`bytes`, the written pixels `ws`, the queue `q` and the current buffer
`b`: written pixels are in-bounds, start-colored and reachable; the
current buffer is the original overwritten with the fill color exactly on
`ws`; queue entries are in-bounds and reachable; and every reachable
start-colored unwritten pixel is connected to some queue entry by an
unwritten start-colored path. -/
def Inv (bytes : Bytes) (start fill : Color) (s : ℤ × ℤ)
    (ws : List (ℤ × ℤ)) (q : List (ℤ × ℤ)) (b : Bytes) : Prop :=
  (∀ p ∈ ws, contains p.1 p.2 = true ∧ readPx bytes p = start ∧
    Reach bytes start s p) ∧
  (∀ p : ℤ × ℤ, contains p.1 p.2 = true →
    readPx b p = if p ∈ ws then fill else readPx bytes p) ∧
  (∀ p ∈ q, contains p.1 p.2 = true ∧ Reach bytes start s p) ∧
  (∀ p : ℤ × ℤ, Reach bytes start s p → readPx bytes p = start → p ∉ ws →
    ∃ u ∈ q, PathW bytes start ws u p)

end Graphics

/-- A concrete instantiation of the transcendental operations, used to
evaluate witnesses on inputs whose behaviour does not depend on them. -/
def stubOps : Interp.FloatOps :=
  ⟨fun _ => F64.nan, fun _ => F64.nan, fun _ => F64.nan, fun _ _ => F64.nan⟩

/-- A pixel buffer that is zero everywhere except for two white pixels:
screen coordinates (0, 0) (bytes 0..3) and (5, 5) (bytes
(5 * 640 + 5) * 4 = 12820 .. 12823).  The two white pixels are not
4-connected through white pixels. -/
def ffBytes : Graphics.Bytes := fun i =>
  if i < 4 then (255 : Fin 256)
  else if 12820 ≤ i ∧ i < 12824 then (255 : Fin 256)
  else (0 : Fin 256)

/-- The turtle position (-320, 240), which `flood_fill` maps to screen
pixel (0, 0). -/
def ffPos : Interp.Point := ⟨F64.num (-320), F64.num 240⟩

/-! Theorems about the embedded program. -/

namespace AList

@[simp] theorem lookup_empty {α : Type} (k : String) :
    lookup (α := α) k [] = none := rfl

theorem lookup_insert {α : Type} (k : String) (v : α) (m : AList α) :
    lookup k (insert k v m) = some v := by
  simp [lookup, insert]

theorem lookup_eraseKey_ne {α : Type} (k k₂ : String) (m : AList α)
    (h : k ≠ k₂) : lookup k₂ (eraseKey k m) = lookup k₂ m := by
  induction m with
  | nil => rfl
  | cons p rest ih =>
    obtain ⟨a, b⟩ := p
    have hs : ¬ (k₂ = k) := fun hek => h hek.symm
    by_cases hp : a = k
    · have hpk : ¬ (a = k₂) := by simpa [hp] using h
      simp [eraseKey, hp, lookup, hpk, ih, h]
    · by_cases hk : a = k₂ <;> simp [eraseKey, hp, lookup, hk, ih, h, hs]

theorem lookup_insert_ne {α : Type} (k k₂ : String) (v : α) (m : AList α)
    (h : k ≠ k₂) : lookup k₂ (insert k v m) = lookup k₂ m := by
  have hk : ¬ (k = k₂) := h
  simp [insert, lookup, hk, lookup_eraseKey_ne k k₂ m h]

end AList


/-- C6: for all `Number` values `a` and `b`, the binary expression
`a Divide b` evaluates to `Ok(Number(a / b))` — division by zero follows
the IEEE model (a signed infinity, or NaN for `0/0`) and is never an
interpreter error; `Divide` errors exactly when an operand is a `List`. -/
theorem eval_divide_ieee_never_error :
    (∀ vmap a b,
      Interp.eval_expr vmap (.mk (.number a) .divide (.number b)) =
        .ok (.number (a.div b))) ∧
    (∀ a b : F64,
      Interp.eval_divide (.number a) (.number b) = .ok (.number (a.div b))) ∧
    (∀ q : ℚ, F64.div (.num q) (.num 0) =
      if q = 0 then F64.nan else F64.inf (decide (q < 0))) ∧
    (∀ (a : F64) (l : List Interp.Value),
      Interp.eval_divide (.number a) (.list l) =
        .error (.interpreter "cannot divide a number and a list")) ∧
    (∀ (l : List Interp.Value) (v : Interp.Value),
      Interp.eval_divide (.list l) v =
        .error (.interpreter "cannot divide two lists")) := by
  refine ⟨?_, ?_, ?_, ?_, ?_⟩
  · intro vmap a b
    simp [Interp.eval_expr, Interp.eval_expr_num_word, Interp.eval_divide]
  · intro a b
    rfl
  · intro q
    simp [F64.div]
  · intro a l
    rfl
  · intro l v
    cases v <;> rfl

/-- C9: at the start of every interpretation the turtle state is angle 0,
position (0,0), pen down, pen color white, screen color black, the
variable map is empty, and the top-level frame's repcount is 0. -/
theorem interpreter_initial_state :
    Interp.State.new =
      { angle := F64.num 0
        color := Color.WHITE
        pen_down := true
        pos := ⟨F64.num 0, F64.num 0⟩
        screen_color := Color.BLACK } ∧
    Interp.Interpreter.new =
      { pal := Interp.default_palette
        state := Interp.State.new
        cmds := [] } ∧
    (∀ ops fuel input, Interp.go ops fuel input =
      Interp.run ops fuel (Interp.Frame.mk 0) input.fmap AList.empty
        input.list Interp.Interpreter.new) := by
  exact ⟨rfl, rfl, fun ops fuel input => rfl⟩

/-- Truncation agrees with the floor on non-negative rationals. -/
theorem F64.qtrunc_eq_floor (q : ℚ) (h : 0 ≤ q) : F64.qtrunc q = ⌊q⌋ := by
  unfold F64.qtrunc
  rw [Int.tdiv_eq_ediv (Rat.num_nonneg.mpr h) (by exact_mod_cast Nat.zero_le q.den),
    Rat.floor_def]

/-- Helper for C10: the default palette answers exactly the keys 0..=15. -/
theorem default_palette_get (idx : ℕ) :
    (Interp.Palette.get Interp.default_palette idx).isSome = decide (idx ≤ 15) := by
  have get_none : ∀ (l : List (ℕ × Color)), (∀ p ∈ l, p.1 < idx) →
      Interp.Palette.get l idx = none := by
    intro l
    induction l with
    | nil => intro _; rfl
    | cons p rest ih =>
      intro h
      obtain ⟨k, c⟩ := p
      have hk : k < idx := h (k, c) (List.mem_cons_self _ _)
      show (if k = idx then some c else Interp.Palette.get rest idx) = none
      rw [if_neg (by omega)]
      exact ih (fun q hq => h q (List.mem_cons_of_mem _ hq))
  by_cases h : idx ≤ 15
  · interval_cases idx <;> rfl
  · have hn : Interp.Palette.get Interp.default_palette idx = none := by
      refine get_none _ ?_
      intro p hp
      fin_cases hp <;> omega
    rw [hn]
    simp [h]

/-- C10: color resolution of `Value::Number(n)` casts `n` with the
saturating `as u8`: negative and NaN values give index 0 (black, no
error), values above 255 saturate to index 255 and fail with *invalid
palette index 255*, and resolution succeeds exactly when the cast index
is one of the 16 palette keys 0..=15. -/
theorem get_color_number_saturating_cast :
    (∀ q : ℚ, q < 0 →
      Interp.get_color Interp.default_palette (.number (F64.num q)) =
        .ok Color.BLACK) ∧
    (Interp.get_color Interp.default_palette (.number F64.nan) =
      .ok Color.BLACK) ∧
    (∀ q : ℚ, 255 < q →
      Interp.get_color Interp.default_palette (.number (F64.num q)) =
        .error (.interpreter "invalid palette index 255")) ∧
    (∀ n : F64,
      (∃ c, Interp.get_color Interp.default_palette (.number n) = .ok c) ↔
        n.asU8 ≤ 15) := by
  have hget : ∀ n : F64,
      Interp.get_color Interp.default_palette (.number n) =
        match Interp.Palette.get Interp.default_palette n.asU8 with
        | some c => .ok c
        | none => .error (.interpreter s!"invalid palette index {n.asU8}") := by
    intro n; rfl
  refine ⟨?_, ?_, ?_, ?_⟩
  · intro q hq
    have h8 : (F64.num q).asU8 = 0 := by simp [F64.asU8, hq]
    rw [hget, h8]
    rfl
  · rw [hget]
    rfl
  · intro q hq
    have h0 : (0 : ℚ) ≤ q := by linarith
    have hfl : (255 : ℤ) ≤ ⌊q⌋ := Int.le_floor.mpr (by exact_mod_cast hq.le)
    have h8 : (F64.num q).asU8 = 255 := by
      simp only [F64.asU8, if_neg (not_lt.mpr h0)]
      rw [F64.qtrunc_eq_floor q h0]
      exact Nat.min_eq_left (by omega)
    rw [hget, h8]
    rfl
  · intro n
    rw [hget n]
    rcases hp : Interp.Palette.get Interp.default_palette n.asU8 with _ | c
    · have hs := default_palette_get n.asU8
      rw [hp] at hs
      simp only [Option.isSome_none, false_eq_decide_iff, not_le] at hs
      constructor
      · rintro ⟨c, hc⟩
        cases hc
      · intro hle
        omega
    · have hs := default_palette_get n.asU8
      rw [hp] at hs
      simp only [Option.isSome_some, true_eq_decide_iff] at hs
      exact ⟨fun _ => hs, fun _ => ⟨c, rfl⟩⟩

/-- Witness for C10 at the concrete palette indices −7, 300 and 9. -/
theorem get_color_number_saturating_cast_witness :
    Interp.get_color Interp.default_palette (.number (F64.num (-7))) =
      .ok Color.BLACK ∧
    Interp.get_color Interp.default_palette (.number (F64.num 300)) =
      .error (.interpreter "invalid palette index 255") ∧
    (∃ c, Interp.get_color Interp.default_palette (.number (F64.num 9)) = .ok c) :=
  ⟨get_color_number_saturating_cast.1 (-7) (by norm_num),
   get_color_number_saturating_cast.2.2.1 300 (by norm_num),
   (get_color_number_saturating_cast.2.2.2 (F64.num 9)).mpr (by decide)⟩

/-- Every `as u8` cast lands in `0..=255`. -/
theorem F64.asU8_le_255 (x : F64) : x.asU8 ≤ 255 := by
  cases x with
  | nan => exact Nat.zero_le _
  | inf s => cases s <;> simp [F64.asU8]
  | num q =>
    simp only [F64.asU8]
    split_ifs
    · exact Nat.zero_le _
    · exact Nat.min_le_left _ _

/-- C7: color resolution of a `Value::List` coerces each of the first
three entries to a byte: an entry must be a `Number` within
`0.0 <= x <= 255.0` (else *color component out of bounds*; a non-number
entry is *expected a number*); fewer than three entries is an error; on
success the alpha byte is 255; and when resolution fails inside
`SetPenColor`/`SetScreenColor` the interpreter state, the variable map
and the command history are all returned unchanged — no state update and
no emission precede the error. -/
theorem get_color_list_component_bounds :
    (∀ x : F64, (F64.le (F64.num 0) x && F64.le x (F64.num 255)) = true →
      Interp.get_color_component (.number x) = .ok x.asU8 ∧ x.asU8 ≤ 255) ∧
    (∀ x : F64, (F64.le (F64.num 0) x && F64.le x (F64.num 255)) = false →
      Interp.get_color_component (.number x) =
        .error (.interpreter ("color component out of bounds " ++ x.fmt))) ∧
    (∀ l, Interp.get_color_component (.list l) =
      .error (.interpreter "expected a number")) ∧
    (∀ pal l, l.length < 3 → Interp.get_color pal (.list l) =
      .error (.interpreter "3 items expected")) ∧
    (∀ pal l c, Interp.get_color pal (.list l) = .ok c → (c.a : ℕ) = 255) ∧
    (∀ ops fuel frame fmap vmap n it e,
      Interp.eval_set_pen_color vmap n it = .error e →
      Interp.eval_node ops fuel frame fmap vmap (.setPenColor n) it =
        (it, vmap, .error e)) ∧
    (∀ ops fuel frame fmap vmap n it e,
      Interp.eval_set_screen_color vmap n it = .error e →
      Interp.eval_node ops fuel frame fmap vmap (.setScreenColor n) it =
        (it, vmap, .error e)) := by
  refine ⟨?_, ?_, ?_, ?_, ?_, ?_, ?_⟩
  · intro x hx
    exact ⟨by simp [Interp.get_color_component, Interp.get_number, hx],
           F64.asU8_le_255 x⟩
  · intro x hx
    simp [Interp.get_color_component, Interp.get_number, hx]
  · intro l
    rfl
  · intro pal l h
    simp [Interp.get_color, Interp.vlist_expect, h]
    rfl
  · intro pal l c h
    match l with
    | [] => simp [Interp.get_color, Interp.vlist_expect] at h
    | [a] => simp [Interp.get_color, Interp.vlist_expect] at h
    | [a, b] => simp [Interp.get_color, Interp.vlist_expect] at h
    | c0 :: c1 :: c2 :: rest =>
      have hlen : ¬ ((c0 :: c1 :: c2 :: rest).length < 3) := by
        simp
      simp only [Interp.get_color, Interp.vlist_expect, if_neg hlen] at h
      cases h0 : Interp.get_color_component c0 with
      | error e0 => rw [h0] at h; simp at h
      | ok r =>
        rw [h0] at h
        cases h1 : Interp.get_color_component c1 with
        | error e1 => rw [h1] at h; simp at h
        | ok g =>
          rw [h1] at h
          cases h2 : Interp.get_color_component c2 with
          | error e2 => rw [h2] at h; simp at h
          | ok b =>
            rw [h2] at h
            simp only [Except.ok.injEq] at h
            subst h
            rfl
  · intro ops fuel frame fmap vmap n it e h
    simp [Interp.eval_node, h]
  · intro ops fuel frame fmap vmap n it e h
    simp [Interp.eval_node, h]

/-- Witness for C7: in-range component 100, out-of-range component 256, a
non-number component, a two-entry list, the success alpha, and a failing
`SetPenColor` statement leaving everything unchanged. -/
theorem get_color_list_component_bounds_witness :
    Interp.get_color_component (.number (F64.num 100)) = .ok 100 ∧
    Interp.get_color_component (.number (F64.num 256)) =
      .error (.interpreter ("color component out of bounds " ++ (F64.num 256).fmt)) ∧
    Interp.get_color_component (.list []) =
      .error (.interpreter "expected a number") ∧
    Interp.get_color Interp.default_palette
      (.list [.number (F64.num 1), .number (F64.num 2)]) =
      .error (.interpreter "3 items expected") ∧
    ((Color.rgb8 1 2 3).a : ℕ) = 255 ∧
    Interp.eval_node stubOps 0 (Interp.Frame.mk 0) [] []
      (.setPenColor ⟨.list [.number (F64.num 300), .number (F64.num 0),
        .number (F64.num 0)]⟩) Interp.Interpreter.new =
      (Interp.Interpreter.new, [],
       .error (.interpreter
         ("color component out of bounds " ++ (F64.num 300).fmt))) :=
  ⟨(get_color_list_component_bounds.1 (F64.num 100) (by decide)).1,
   get_color_list_component_bounds.2.1 (F64.num 256) (by decide),
   get_color_list_component_bounds.2.2.1 [],
   get_color_list_component_bounds.2.2.2.1 Interp.default_palette _ (by decide),
   get_color_list_component_bounds.2.2.2.2.1 Interp.default_palette
     [.number (F64.num 1), .number (F64.num 2), .number (F64.num 3)]
     (Color.rgb8 1 2 3) (by rfl),
   get_color_list_component_bounds.2.2.2.2.2.1 stubOps 0 (Interp.Frame.mk 0)
     [] [] _ Interp.Interpreter.new _ (by
       simp [Interp.eval_set_pen_color, Interp.eval_list_num_word,
         Interp.eval_list, Interp.eval_items, Interp.eval_any_item,
         Interp.get_color, Interp.get_color_component, Interp.get_number,
         Interp.vlist_expect, Interp.Interpreter.new, F64.le]
       rfl)⟩

/-- C3 counterexample: the empty token sequence parses successfully, and
the returned function map is empty — in particular it has no entry for
`random` (`Parser::new` pre-populates nothing). -/
theorem parser_fmap_without_random_cex :
    Parser.go 1 [] = .ok ⟨[], []⟩ ∧
    AList.lookup "random" ([] : Parser.ParserFuncMap) = none :=
  ⟨rfl, rfl⟩

/-- C3 amended: the parser starts with empty symbol and function maps and
pre-populates no builtin; a source-level `random` is handled by keyword
dispatch into a `Random{max}` node, not through the function map. -/
theorem parser_no_builtin_random :
    Parser.Parser.new = ⟨[], []⟩ ∧
    (∀ fuel p iter, Parser.parse_word (fuel + 1) p iter "random" =
      Parser.parse_random fuel p iter) ∧
    Parser.go 9 [.lexerWord "random", .lexerNumber (F64.num 7)] =
      .ok ⟨[.random (.number (F64.num 7))], []⟩ := by
  exact ⟨rfl, fun fuel p iter => rfl, rfl⟩

/-- C2 counterexample: after `let x = 1`, the statement tokens `x = 2` do
not parse as an assignment node; the parser consumes only `x` and then
fails on the `=` token with *expected a word*. -/
theorem parse_var_statement_cex :
    Parser.go 20 [.lexerWord "let", .lexerWord "x", .lexerOperator .assign,
      .lexerNumber (F64.num 1), .lexerWord "x", .lexerOperator .assign,
      .lexerNumber (F64.num 2)] = .error (.parser "expected a word") := rfl

/-- C2 amended: a non-keyword word in statement position whose symbol-table
entry is `Var` parses to a `Word` node (a variable reference), consuming
no further tokens and leaving the parser state unchanged; no assignment
node is produced (the `ParserNode` type has no assignment variant). -/
theorem parse_other_var_yields_word :
    ∀ fuel p iter word, AList.lookup word (Parser.Parser.smap p) = some .var →
      Parser.parse_other (fuel + 1) p iter word = .ok (.word word, p, iter) := by
  intro fuel p iter word h
  simp [Parser.parse_other, h]

/-- Witness for the amended C2 at the concrete table `{x ↦ Var}`. -/
theorem parse_other_var_yields_word_witness :
    Parser.parse_other 1 ⟨[("x", .var)], []⟩ (Parser.ListIter.new []) "x" =
      .ok (.word "x", ⟨[("x", .var)], []⟩, Parser.ListIter.new []) :=
  parse_other_var_yields_word 0 ⟨[("x", .var)], []⟩ (Parser.ListIter.new [])
    "x" rfl

/-- The repeat loop with a mutable child frame equals iteration over the
explicit list of repcount values. -/
theorem repeat_loop_eq_run_iters (ops : Interp.FloatOps) (fuel : ℕ)
    (fmap : Interp.FuncMap) (list : List Interp.Node) :
    ∀ (n start : ℕ) (vmap : Interp.VarMap) (it : Interp.Interpreter),
      Interp.repeat_loop ops fuel fmap list n (Interp.Frame.mk start) vmap it =
        Interp.run_iters ops fuel fmap list (List.range' (start + 1) n) vmap it := by
  intro n
  induction n with
  | zero =>
    intro start vmap it
    simp [Interp.repeat_loop, Interp.run_iters]
  | succ m ih =>
    intro start vmap it
    rw [List.range'_succ]
    simp only [Interp.repeat_loop, Interp.run_iters]
    rcases hr : Interp.run ops fuel (Interp.Frame.mk (start + 1)) fmap vmap
        list it with ⟨it₂, vmap₂, r⟩
    cases r with
    | ok u => exact ih (start + 1) vmap₂ it₂
    | error e => rfl

/-- C1: `Repeat{count, body}` evaluates the count to a number (propagating
its error), truncates it with the saturating `as usize` cast to `N`, and
executes the body exactly `N` times sharing the caller's variable and
function maps, iteration `i ∈ 1..=N` running in a child frame whose
repcount is exactly `i`; the caller's frame is ignored, and a count `≤ 0`
(the cast gives 0) executes the body zero times, leaving everything
unchanged. -/
theorem eval_repeat_counts :
    (∀ ops fuel frame fmap vmap node it,
      Interp.eval_repeat ops fuel frame fmap vmap node it =
        match Interp.eval_expr_num_word_as_number vmap node.count with
        | .error e => (it, vmap, .error e)
        | .ok count =>
          Interp.run_iters ops fuel fmap node.list
            (List.range' 1 count.asUsize) vmap it) ∧
    (∀ count : F64, F64.le count (F64.num 0) = true → count.asUsize = 0) ∧
    (∀ ops fuel frame fmap vmap node it count,
      Interp.eval_expr_num_word_as_number vmap node.count = .ok count →
      F64.le count (F64.num 0) = true →
      Interp.eval_repeat ops fuel frame fmap vmap node it =
        (it, vmap, .ok ())) := by
  have main : ∀ ops fuel frame fmap vmap node it,
      Interp.eval_repeat ops fuel frame fmap vmap node it =
        match Interp.eval_expr_num_word_as_number vmap node.count with
        | .error e => (it, vmap, .error e)
        | .ok count =>
          Interp.run_iters ops fuel fmap node.list
            (List.range' 1 count.asUsize) vmap it := by
    intro ops fuel frame fmap vmap node it
    cases node with
    | mk countExpr list =>
      simp only [Interp.eval_repeat, Interp.RepeatNode.count, Interp.RepeatNode.list]
      rcases h : Interp.eval_expr_num_word_as_number vmap countExpr with e | count
      · rfl
      · exact repeat_loop_eq_run_iters ops fuel fmap list count.asUsize 0 vmap it
  have cast0 : ∀ count : F64, F64.le count (F64.num 0) = true →
      count.asUsize = 0 := by
    intro count h
    cases count with
    | nan => simp [F64.le] at h
    | inf s =>
      cases s
      · simp [F64.le] at h
      · rfl
    | num q =>
      simp only [F64.le, decide_eq_true_eq] at h
      by_cases hq : q < 0
      · simp [F64.asUsize, hq]
      · have : q = 0 := le_antisymm h (not_lt.mp hq)
        subst this
        rfl
  refine ⟨main, cast0, ?_⟩
  intro ops fuel frame fmap vmap node it count hc hle
  rw [main ops fuel frame fmap vmap node it, hc]
  show Interp.run_iters ops fuel fmap node.list
    (List.range' 1 count.asUsize) vmap it = (it, vmap, .ok ())
  rw [cast0 count hle]
  rfl

/-- Reflexivity of symbol-table preservation. -/
theorem sp_refl (p : Parser.Parser) : Parser.SmapPreserves p p := fun _ _ h => h

/-- Transitivity of symbol-table preservation. -/
theorem sp_trans {p q s : Parser.Parser} (h₁ : Parser.SmapPreserves p q)
    (h₂ : Parser.SmapPreserves q s) : Parser.SmapPreserves p s :=
  fun n t hp => h₂ n t (h₁ n t hp)

/-- `check_symbol` never changes an existing tag: on success the symbol
table either is unchanged or gains a fresh name. -/
theorem check_symbol_preserves {p q : Parser.Parser} {name : String}
    {tag : Parser.SymbolTag} (h : Parser.check_symbol p name tag = .ok q) :
    Parser.SmapPreserves p q := by
  unfold Parser.check_symbol at h
  split at h
  · split at h
    · injection h with h₂
      subst h₂
      exact sp_refl p
    · cases h
  · rename_i hl
    injection h with h₂
    subst h₂
    intro n t hn
    by_cases hne : name = n
    · subst hne
      rw [hl] at hn
      cases hn
    · show AList.lookup n (AList.insert name tag p.smap) = some t
      rw [AList.lookup_insert_ne name n tag p.smap hne]
      exact hn

/-- `parse_call` never touches the symbol table. -/
theorem parse_call_smap (p : Parser.Parser) (iter : Parser.ListIter)
    (name : String) (r : Parser.ParserNode × Parser.Parser × Parser.ListIter)
    (h : Parser.parse_call p iter name = .ok r) :
    Parser.SmapPreserves p r.2.1 := by
  simp only [Parser.parse_call] at h
  split at h
  · cases h
  · split at h
    · cases h
    · split at h
      · cases h
      · injection h with h₂
        subst h₂
        exact sp_refl p

/-- Symbol-table preservation across every parser function: a successful
run maps each already-registered name to the same tag in the resulting
symbol table (the table is only extended, via `check_symbol`, and only
with fresh names). -/
theorem parse_smap_preservation : ∀ fuel : ℕ,
    (∀ p iter r, Parser.parse fuel p iter = .ok r →
      Parser.SmapPreserves p r.2.1) ∧
    (∀ p iter w r, Parser.parse_word fuel p iter w = .ok r →
      Parser.SmapPreserves p r.2.1) ∧
    (∀ p iter w r, Parser.parse_other fuel p iter w = .ok r →
      Parser.SmapPreserves p r.2.1) ∧
    (∀ p iter r, Parser.parse_backward fuel p iter = .ok r →
      Parser.SmapPreserves p r.2.1) ∧
    (∀ p iter a op b r, Parser.parse_bin_expr fuel p iter a op b = .ok r →
      Parser.SmapPreserves p r.2.1) ∧
    (∀ p iter e r, Parser.parse_expr fuel p iter e = .ok r →
      Parser.SmapPreserves p r.2.1) ∧
    (∀ p iter r, Parser.parse_fn fuel p iter = .ok r →
      Parser.SmapPreserves p r.2.1) ∧
    (∀ p iter r, Parser.parse_forward fuel p iter = .ok r →
      Parser.SmapPreserves p r.2.1) ∧
    (∀ p iter r, Parser.parse_let fuel p iter = .ok r →
      Parser.SmapPreserves p r.2.1) ∧
    (∀ p iter r, Parser.parse_left fuel p iter = .ok r →
      Parser.SmapPreserves p r.2.1) ∧
    (∀ p l r, Parser.parse_list fuel p l = .ok r →
      Parser.SmapPreserves p r.2) ∧
    (∀ p iter r, Parser.parse_list_loop fuel p iter = .ok r →
      Parser.SmapPreserves p r.2.1) ∧
    (∀ p iter r, Parser.parse_random fuel p iter = .ok r →
      Parser.SmapPreserves p r.2.1) ∧
    (∀ p iter r, Parser.parse_repeat fuel p iter = .ok r →
      Parser.SmapPreserves p r.2.1) ∧
    (∀ p iter r, Parser.parse_right fuel p iter = .ok r →
      Parser.SmapPreserves p r.2.1) ∧
    (∀ p iter r, Parser.parse_set_heading fuel p iter = .ok r →
      Parser.SmapPreserves p r.2.1) ∧
    (∀ p iter r, Parser.parse_set_pen_color fuel p iter = .ok r →
      Parser.SmapPreserves p r.2.1) ∧
    (∀ p iter r, Parser.parse_set_pos fuel p iter = .ok r →
      Parser.SmapPreserves p r.2.1) ∧
    (∀ p iter r, Parser.parse_set_screen_color fuel p iter = .ok r →
      Parser.SmapPreserves p r.2.1) ∧
    (∀ p iter r, Parser.parse_setxy fuel p iter = .ok r →
      Parser.SmapPreserves p r.2.1) ∧
    (∀ p iter r, Parser.parse_setx fuel p iter = .ok r →
      Parser.SmapPreserves p r.2.1) ∧
    (∀ p iter r, Parser.parse_sety fuel p iter = .ok r →
      Parser.SmapPreserves p r.2.1) := by
  intro fuel
  induction fuel with
  | zero =>
    refine ⟨?_, ?_, ?_, ?_, ?_, ?_, ?_, ?_, ?_, ?_, ?_, ?_, ?_, ?_, ?_, ?_,
        ?_, ?_, ?_, ?_, ?_, ?_⟩
    · intro p iter r h
      simp [Parser.parse] at h
    · intro p iter w r h
      simp [Parser.parse_word] at h
    · intro p iter w r h
      simp [Parser.parse_other] at h
    · intro p iter r h
      simp [Parser.parse_backward] at h
    · intro p iter a op b r h
      simp [Parser.parse_bin_expr] at h
    · intro p iter e r h
      simp [Parser.parse_expr] at h
    · intro p iter r h
      simp [Parser.parse_fn] at h
    · intro p iter r h
      simp [Parser.parse_forward] at h
    · intro p iter r h
      simp [Parser.parse_let] at h
    · intro p iter r h
      simp [Parser.parse_left] at h
    · intro p l r h
      simp [Parser.parse_list] at h
    · intro p iter r h
      simp [Parser.parse_list_loop] at h
    · intro p iter r h
      simp [Parser.parse_random] at h
    · intro p iter r h
      simp [Parser.parse_repeat] at h
    · intro p iter r h
      simp [Parser.parse_right] at h
    · intro p iter r h
      simp [Parser.parse_set_heading] at h
    · intro p iter r h
      simp [Parser.parse_set_pen_color] at h
    · intro p iter r h
      simp [Parser.parse_set_pos] at h
    · intro p iter r h
      simp [Parser.parse_set_screen_color] at h
    · intro p iter r h
      simp [Parser.parse_setxy] at h
    · intro p iter r h
      simp [Parser.parse_setx] at h
    · intro p iter r h
      simp [Parser.parse_sety] at h
  | succ f ih =>
    obtain ⟨ihp, ihw, iho, ihbk, ihbin, ihex, ihfn, ihfd, ihlet, ihlt, ihls,
        ihll, ihrd, ihrp, ihrt, ihsh, ihpc, ihsp, ihsc, ihxy, ihx, ihy⟩ := ih
    refine ⟨?_, ?_, ?_, ?_, ?_, ?_, ?_, ?_, ?_, ?_, ?_, ?_, ?_, ?_, ?_, ?_,
        ?_, ?_, ?_, ?_, ?_, ?_⟩
    · intro p iter r h
      simp only [Parser.parse] at h
      split at h
      · injection h with h₂
        subst h₂
        exact sp_refl p
      · split at h
        · cases h
        · rename_i word it2 hgw
          split at h
          · cases h
          · rename_i node p2 it3 hpw
            split at h
            · cases h
            · rename_i rest p3 it4 hpp
              injection h with h₂
              subst h₂
              exact sp_trans (ihw p it2 word (node, p2, it3) hpw)
                (ihp p2 it3 (rest, p3, it4) hpp)
    · intro p iter w r h
      simp only [Parser.parse_word] at h
      split at h
      all_goals first
        | (injection h with h₂; subst h₂; exact sp_refl p)
        | exact ihbk _ _ r h
        | exact ihfd _ _ r h
        | exact ihfn _ _ r h
        | exact ihlet _ _ r h
        | exact ihlt _ _ r h
        | exact ihrd _ _ r h
        | exact ihrp _ _ r h
        | exact ihrt _ _ r h
        | exact ihsh _ _ r h
        | exact ihpc _ _ r h
        | exact ihsp _ _ r h
        | exact ihsc _ _ r h
        | exact ihxy _ _ r h
        | exact ihx _ _ r h
        | exact ihy _ _ r h
        | exact iho _ _ w r h
    · intro p iter w r h
      simp only [Parser.parse_other] at h
      split at h
      · exact parse_call_smap p iter w r h
      · injection h with h₂
        subst h₂
        exact sp_refl p
      · cases h
    · intro p iter r h
      simp only [Parser.parse_backward] at h
      split at h
      · cases h
      · split at h
        · cases h
        · split at h
          · cases h
          · rename_i dn p2 it3 hpe
            injection h with h₂
            subst h₂
            exact ihex _ _ _ (dn, p2, it3) hpe
    · intro p iter a op b r h
      simp only [Parser.parse_bin_expr] at h
      split at h
      · cases h
      · rename_i anode p2 it2 hpa
        split at h
        · cases h
        · rename_i bnode p3 it3 hpb
          injection h with h₂
          subst h₂
          exact sp_trans (ihex _ _ _ (anode, p2, it2) hpa)
            (ihex _ _ _ (bnode, p3, it3) hpb)
    · intro p iter e r h
      simp only [Parser.parse_expr] at h
      split at h
      · exact ihbin _ _ _ _ _ r h
      · injection h with h₂
        subst h₂
        exact sp_refl p
      · split at h
        · cases h
        · rename_i node p2 hpl
          injection h with h₂
          subst h₂
          exact ihls _ _ (node, p2) hpl
      · exact ihw _ _ _ r h
      · cases h
    · intro p iter r h
      simp only [Parser.parse_fn] at h
      split at h
      · cases h
      · split at h
        · cases h
        · rename_i name it2 hgw
          split at h
          · cases h
          · rename_i p2 hcs
            split at h
            · cases h
            · rename_i block it3 hgb
              split at h
              · cases h
              · rename_i list p3 it4 hpp
                injection h with h₂
                subst h₂
                exact sp_trans (check_symbol_preserves hcs)
                  (ihp p2 _ (list, p3, it4) hpp)
    · intro p iter r h
      simp only [Parser.parse_forward] at h
      split at h
      · cases h
      · split at h
        · cases h
        · split at h
          · cases h
          · rename_i dn p2 it3 hpe
            injection h with h₂
            subst h₂
            exact ihex _ _ _ (dn, p2, it3) hpe
    · intro p iter r h
      simp only [Parser.parse_let] at h
      split at h
      · cases h
      · split at h
        · cases h
        · rename_i var it2 hgw
          split at h
          · cases h
          · rename_i p2 hcs
            split at h
            · cases h
            · rename_i it3 hea
              split at h
              · cases h
              · rename_i rhs it4 hnx
                split at h
                · cases h
                · rename_i rhs_node p3 it5 hpe
                  injection h with h₂
                  subst h₂
                  exact sp_trans (check_symbol_preserves hcs)
                    (ihex _ _ _ (rhs_node, p3, it5) hpe)
    · intro p iter r h
      simp only [Parser.parse_left] at h
      split at h
      · cases h
      · split at h
        · cases h
        · split at h
          · cases h
          · rename_i dn p2 it3 hpe
            injection h with h₂
            subst h₂
            exact ihex _ _ _ (dn, p2, it3) hpe
    · intro p l r h
      simp only [Parser.parse_list] at h
      split at h
      · cases h
      · rename_i nodes p2 it2 hll
        injection h with h₂
        subst h₂
        exact ihll _ _ (nodes, p2, it2) hll
    · intro p iter r h
      simp only [Parser.parse_list_loop] at h
      split at h
      · injection h with h₂
        subst h₂
        exact sp_refl p
      · split at h
        · cases h
        · rename_i expr it2 hge
          split at h
          · cases h
          · rename_i node p2 it3 hpe
            split at h
            · cases h
            · rename_i nodes p3 it4 hll
              injection h with h₂
              subst h₂
              exact sp_trans (ihex _ _ _ (node, p2, it3) hpe)
                (ihll p2 it3 (nodes, p3, it4) hll)
    · intro p iter r h
      simp only [Parser.parse_random] at h
      split at h
      · cases h
      · split at h
        · cases h
        · split at h
          · cases h
          · rename_i dn p2 it3 hpe
            injection h with h₂
            subst h₂
            exact ihex _ _ _ (dn, p2, it3) hpe
    · intro p iter r h
      simp only [Parser.parse_repeat] at h
      split at h
      · cases h
      · split at h
        · cases h
        · rename_i count it2 hge
          split at h
          · cases h
          · rename_i count_node p2 it3 hpe
            split at h
            · cases h
            · rename_i block it4 hgb
              split at h
              · cases h
              · rename_i node_list p3 it5 hpp
                injection h with h₂
                subst h₂
                exact sp_trans (ihex _ _ _ (count_node, p2, it3) hpe)
                  (ihp p2 _ (node_list, p3, it5) hpp)
    · intro p iter r h
      simp only [Parser.parse_right] at h
      split at h
      · cases h
      · split at h
        · cases h
        · split at h
          · cases h
          · rename_i dn p2 it3 hpe
            injection h with h₂
            subst h₂
            exact ihex _ _ _ (dn, p2, it3) hpe
    · intro p iter r h
      simp only [Parser.parse_set_heading] at h
      split at h
      · cases h
      · split at h
        · cases h
        · split at h
          · cases h
          · rename_i dn p2 it3 hpe
            injection h with h₂
            subst h₂
            exact ihex _ _ _ (dn, p2, it3) hpe
    · intro p iter r h
      simp only [Parser.parse_set_pen_color] at h
      split at h
      · cases h
      · split at h
        · cases h
        · split at h
          · cases h
          · rename_i dn p2 it3 hpe
            injection h with h₂
            subst h₂
            exact ihex _ _ _ (dn, p2, it3) hpe
    · intro p iter r h
      simp only [Parser.parse_set_pos] at h
      split at h
      · cases h
      · split at h
        · cases h
        · rename_i pos it2 hgl
          split at h
          · cases h
          · rename_i node p2 it3 hxy
            injection h with h₂
            subst h₂
            exact ihxy _ _ (node, p2, it3) hxy
    · intro p iter r h
      simp only [Parser.parse_set_screen_color] at h
      split at h
      · cases h
      · split at h
        · cases h
        · split at h
          · cases h
          · rename_i dn p2 it3 hpe
            injection h with h₂
            subst h₂
            exact ihex _ _ _ (dn, p2, it3) hpe
    · intro p iter r h
      simp only [Parser.parse_setxy] at h
      split at h
      · cases h
      · split at h
        · cases h
        · rename_i x it2 hgx
          split at h
          · cases h
          · rename_i x_node p2 it3 hpx
            split at h
            · cases h
            · rename_i y it4 hgy
              split at h
              · cases h
              · rename_i y_node p3 it5 hpy
                injection h with h₂
                subst h₂
                exact sp_trans (ihex _ _ _ (x_node, p2, it3) hpx)
                  (ihex _ _ _ (y_node, p3, it5) hpy)
    · intro p iter r h
      simp only [Parser.parse_setx] at h
      split at h
      · cases h
      · split at h
        · cases h
        · split at h
          · cases h
          · rename_i dn p2 it3 hpe
            injection h with h₂
            subst h₂
            exact ihex _ _ _ (dn, p2, it3) hpe
    · intro p iter r h
      simp only [Parser.parse_sety] at h
      split at h
      · cases h
      · split at h
        · cases h
        · split at h
          · cases h
          · rename_i dn p2 it3 hpe
            injection h with h₂
            subst h₂
            exact ihex _ _ _ (dn, p2, it3) hpe

/-- C5: throughout one parse a name's symbol-table kind never changes —
registered names keep their tags across any successful parse; declaring a
name already registered with the other kind is the *duplicate symbol*
parser error, while same-kind re-declaration succeeds without touching
the table (a fresh name is inserted); and a same-kind `fn` re-declaration
replaces the stored definition. -/
theorem parser_symbol_kind_monotone :
    (∀ fuel p iter r, Parser.parse fuel p iter = .ok r →
      Parser.SmapPreserves p r.2.1) ∧
    (∀ p name tag existing,
      AList.lookup name (Parser.Parser.smap p) = some existing →
      Parser.check_symbol p name tag =
        if existing = tag then .ok p
        else .error (.parser ("symbol \"" ++ name ++
          "\" already exists with tag " ++ existing.debugStr))) ∧
    (∀ p name tag, AList.lookup name (Parser.Parser.smap p) = none →
      Parser.check_symbol p name tag =
        .ok ⟨AList.insert name tag p.smap, p.fmap⟩) ∧
    Parser.go 30 [.lexerWord "fn", .lexerWord "f", .lexerBlock [],
      .lexerWord "fn", .lexerWord "f", .lexerBlock [.lexerWord "home"]] =
      .ok ⟨[.placeholder, .placeholder], [("f", ⟨false, 0, [.home]⟩)]⟩ := by
  refine ⟨fun fuel => (parse_smap_preservation fuel).1, ?_, ?_, ?_⟩
  · intro p name tag existing h
    unfold Parser.check_symbol
    rw [h]
  · intro p name tag h
    unfold Parser.check_symbol
    rw [h]
  · rfl

/-- Witness for C5: a `Var`-registered name rejected as `fn`, and the
preservation of a registered tag across a concrete parse. -/
theorem parser_symbol_kind_monotone_witness :
    (Parser.check_symbol ⟨[("x", Parser.SymbolTag.var)], []⟩ "x" .func =
      if Parser.SymbolTag.var = Parser.SymbolTag.func
      then .ok ⟨[("x", Parser.SymbolTag.var)], []⟩
      else .error (.parser ("symbol \"x\" already exists with tag " ++
        Parser.SymbolTag.debugStr .var))) ∧
    AList.lookup "x"
      (Parser.Parser.smap ⟨[("x", Parser.SymbolTag.var)], []⟩) = some .var :=
  ⟨parser_symbol_kind_monotone.2.1 ⟨[("x", .var)], []⟩ "x" .func .var rfl,
   parser_symbol_kind_monotone.1 2 ⟨[("x", .var)], []⟩ (Parser.ListIter.new [])
     ([], ⟨[("x", .var)], []⟩, Parser.ListIter.new []) rfl "x" .var rfl⟩

/-- Lexing a block of `d` opens followed by `d + 1` closes from a fresh
state produces the `d`-deep nested list, consumes through the unmatched
closer, and leaves the tail — for any depth `d`. -/
theorem lex_loop_nested (d : ℕ) : ∀ (fuel idx : ℕ) (tail : List Char),
    2 * d + 2 ≤ fuel →
    ∃ idx₂, Lexer.lex_loop fuel Lexer.LexerState.new
      (List.replicate d '[' ++ List.replicate (d + 1) ']' ++ tail) idx =
      .ok (Lexer.deep d, tail, idx₂) := by
  induction d with
  | zero =>
    intro fuel idx tail hfuel
    obtain ⟨f, rfl⟩ : ∃ f, fuel = f + 1 := ⟨fuel - 1, by omega⟩
    exact ⟨idx, rfl⟩
  | succ d ih =>
    intro fuel idx tail hfuel
    obtain ⟨f, rfl⟩ : ∃ f, fuel = f + 1 := ⟨fuel - 1, by omega⟩
    obtain ⟨f₂, rfl⟩ : ∃ f₂, f = f₂ + 1 := ⟨f - 1, by omega⟩
    obtain ⟨idxI, hI⟩ := ih (f₂ + 1) idx (']' :: tail) (by omega)
    refine ⟨idxI + 1, ?_⟩
    have hshift : ∀ (n : ℕ) (t : List Char),
        ']' :: (List.replicate n ']' ++ t) = List.replicate n ']' ++ (']' :: t) := by
      intro n
      induction n with
      | zero => intro t; rfl
      | succ n ihn =>
        intro t
        simp only [List.replicate_succ, List.cons_append]
        rw [ihn]
    have hchars : List.replicate (d + 1) '[' ++ List.replicate (d + 2) ']' ++ tail =
        '[' :: (List.replicate d '[' ++ List.replicate (d + 1) ']' ++ (']' :: tail)) := by
      rw [List.replicate_succ]
      rw [List.replicate_succ]
      simp only [List.cons_append, List.append_assoc]
      rw [hshift]
    rw [hchars]
    have key : Lexer.lex_loop (f₂ + 1 + 1) Lexer.LexerState.new
        ('[' :: (List.replicate d '[' ++ List.replicate (d + 1) ']' ++ (']' :: tail))) idx =
        (match Lexer.lex_loop (f₂ + 1) Lexer.LexerState.new
            (List.replicate d '[' ++ List.replicate (d + 1) ']' ++ (']' :: tail)) idx with
         | Except.error e => Except.error e
         | Except.ok (block, rest₂, idx₂) =>
           Lexer.lex_loop (f₂ + 1) ⟨[LexerAny.lexerList block], [], false⟩ rest₂ (idx₂ + 1)) := rfl
    rw [key, hI]
    rfl

/-- C4 counterexample: a source string with list nesting depth 33 lexes
successfully (to the 33-deep nested list token), rather than failing with
*maximum stack exceeded*. -/
theorem lex_depth33_cex :
    Lexer.go 100 (String.mk (List.replicate 33 '[' ++ List.replicate 33 ']')) =
      .ok (Lexer.deep 33) := rfl

/-- C4 amended: the lexer imposes no nesting-depth limit; for every depth
`d` (in particular every depth above 32) the `d`-deep pure list nesting
lexes successfully, and no *maximum stack exceeded* failure exists in
this revision of the lexer. -/
theorem lex_accepts_any_nesting_depth (d : ℕ) :
    Lexer.go (2 * d + 3) (String.mk (List.replicate d '[' ++ List.replicate d ']')) =
      .ok (Lexer.deep d) := by
  cases d with
  | zero => rfl
  | succ d =>
    have hdata : (String.mk (List.replicate (d + 1) '[' ++ List.replicate (d + 1) ']')).data =
        '[' :: (List.replicate d '[' ++ List.replicate (d + 1) ']' ++ ([] : List Char)) := by
      show List.replicate (d + 1) '[' ++ List.replicate (d + 1) ']' =
        '[' :: (List.replicate d '[' ++ List.replicate (d + 1) ']' ++ [])
      rw [List.replicate_succ ('[' : Char) d]
      simp
    obtain ⟨idxI, hI⟩ := lex_loop_nested d (2 * d + 3 + 1) 1 [] (by omega)
    show (match Lexer.lex_loop (2 * (d + 1) + 3)
        Lexer.LexerState.new
        (String.mk (List.replicate (d + 1) '[' ++ List.replicate (d + 1) ']')).data 1 with
      | Except.error e => Except.error e
      | Except.ok (list, _, _) => Except.ok list) = Except.ok (Lexer.deep (d + 1))
    rw [hdata]
    have harith : 2 * (d + 1) + 3 = 2 * d + 3 + 1 + 1 := by omega
    rw [harith]
    have key : Lexer.lex_loop (2 * d + 3 + 1 + 1) Lexer.LexerState.new
        ('[' :: (List.replicate d '[' ++ List.replicate (d + 1) ']' ++ [])) 1 =
        (match Lexer.lex_loop (2 * d + 3 + 1) Lexer.LexerState.new
            (List.replicate d '[' ++ List.replicate (d + 1) ']' ++ []) 1 with
         | Except.error e => Except.error e
         | Except.ok (block, rest₂, idx₂) =>
           Lexer.lex_loop (2 * d + 3 + 1)
             ⟨[LexerAny.lexerList block], [], false⟩ rest₂ (idx₂ + 1)) := rfl
    rw [key, hI]
    rfl

/-- Unpacking of the `contains` bounds check. -/
theorem contains_iff {x y : ℤ} :
    Graphics.contains x y = true ↔
      0 ≤ x ∧ x < (Graphics.WIDTH : ℤ) ∧ 0 ≤ y ∧ y < (Graphics.HEIGHT : ℤ) := by
  simp only [Graphics.contains, Bool.and_eq_true, decide_eq_true_eq]
  tauto

/-- Reachable pixels are in bounds. -/
theorem reach_contains {bytes : Graphics.Bytes} {start : Color} {s p : ℤ × ℤ}
    (h : Graphics.Reach bytes start s p) : Graphics.contains p.1 p.2 = true := by
  induction h with
  | start h => exact h
  | step hp hcol hq hcq ih => exact hcq

/-- Reading back the pixel just written yields the written color. -/
theorem readPx_writePx_eq (b : Graphics.Bytes) (p : ℤ × ℤ) (c : Color) :
    Graphics.readPx (Graphics.writePx b p c) p = c := by
  unfold Graphics.readPx Graphics.writePx Graphics.read_xy Graphics.write_xy
    Graphics.write_byte
  have h1 : ∀ n : ℕ, ¬ (n = n + 3) := by omega
  have h2 : ∀ n : ℕ, ¬ (n = n + 2) := by omega
  have h3 : ∀ n : ℕ, ¬ (n = n + 1) := by omega
  have h4 : ∀ n : ℕ, ¬ (n + 1 = n + 3) := by omega
  have h5 : ∀ n : ℕ, ¬ (n + 1 = n + 2) := by omega
  have h6 : ∀ n : ℕ, ¬ (n + 2 = n + 3) := by omega
  simp [h1, h2, h3, h4, h5, h6]

/-- Writing one in-bounds pixel does not disturb any other in-bounds
pixel (their byte ranges are disjoint). -/
theorem readPx_writePx_ne {b : Graphics.Bytes} {p p₂ : ℤ × ℤ} {c : Color}
    (hp : Graphics.contains p.1 p.2 = true)
    (hp₂ : Graphics.contains p₂.1 p₂.2 = true) (hne : p₂ ≠ p) :
    Graphics.readPx (Graphics.writePx b p c) p₂ = Graphics.readPx b p₂ := by
  rcases contains_iff.mp hp with ⟨ha1, ha2, ha3, ha4⟩
  rcases contains_iff.mp hp₂ with ⟨hb1, hb2, hb3, hb4⟩
  have hxw : p.1.toNat < Graphics.WIDTH := by omega
  have hxw₂ : p₂.1.toNat < Graphics.WIDTH := by omega
  have hblock : p₂.2.toNat * Graphics.WIDTH + p₂.1.toNat ≠
      p.2.toNat * Graphics.WIDTH + p.1.toNat := by
    intro he
    apply hne
    have hww : Graphics.WIDTH = 640 := rfl
    rw [hww] at he hxw hxw₂
    have hx : p₂.1.toNat = p.1.toNat := by omega
    have hy : p₂.2.toNat = p.2.toNat := by omega
    have : p₂.1 = p.1 := by omega
    have : p₂.2 = p.2 := by omega
    exact Prod.ext (by omega) (by omega)
  unfold Graphics.readPx Graphics.writePx Graphics.read_xy Graphics.write_xy
    Graphics.write_byte Graphics.byte_idx
  have hk : ∀ k k₂ : ℕ, k < 4 → k₂ < 4 →
      ¬ ((p₂.2.toNat * Graphics.WIDTH + p₂.1.toNat) * 4 + k =
        (p.2.toNat * Graphics.WIDTH + p.1.toNat) * 4 + k₂) := by
    intro k k₂ hk hk₂ he
    exact hblock (by omega)
  have e0 := fun k₂ h => hk 0 k₂ (by omega) h
  congr 1
  · have g0 := fun k₂ h => (by simpa using hk 0 k₂ (by omega) h)
    rw [if_neg (by simpa using hk 0 3 (by omega) (by omega)),
      if_neg (by simpa using hk 0 2 (by omega) (by omega)),
      if_neg (by simpa using hk 0 1 (by omega) (by omega)),
      if_neg (by simpa using hk 0 0 (by omega) (by omega))]
  · rw [if_neg (by simpa using hk 1 3 (by omega) (by omega)),
      if_neg (by simpa using hk 1 2 (by omega) (by omega)),
      if_neg (by simpa using hk 1 1 (by omega) (by omega)),
      if_neg (by simpa using hk 1 0 (by omega) (by omega))]
  · rw [if_neg (by simpa using hk 2 3 (by omega) (by omega)),
      if_neg (by simpa using hk 2 2 (by omega) (by omega)),
      if_neg (by simpa using hk 2 1 (by omega) (by omega)),
      if_neg (by simpa using hk 2 0 (by omega) (by omega))]
  · rw [if_neg (by simpa using hk 3 3 (by omega) (by omega)),
      if_neg (by simpa using hk 3 2 (by omega) (by omega)),
      if_neg (by simpa using hk 3 1 (by omega) (by omega)),
      if_neg (by simpa using hk 3 0 (by omega) (by omega))]

/-- A path may be extended by one step at its end. -/
theorem pathW_snoc {bytes : Graphics.Bytes} {start : Color}
    {ws : List (ℤ × ℤ)} {u p q : ℤ × ℤ}
    (hp : Graphics.PathW bytes start ws u p)
    (hcol : Graphics.readPx bytes p = start) (hw : p ∉ ws)
    (hn : q ∈ Graphics.nbrs p) (hc : Graphics.contains q.1 q.2 = true) :
    Graphics.PathW bytes start ws u q := by
  revert hcol hw hn hc
  induction hp with
  | refl p =>
    intro h1 h2 h3 h4
    exact .step h1 h2 h3 h4 (.refl q)
  | step hcol₂ hw₂ hn₂ hc₂ hp₂ ih =>
    intro h1 h2 h3 h4
    exact .step hcol₂ hw₂ hn₂ hc₂ (ih h1 h2 h3 h4)

/-- Path surgery: after marking `node` as written, any path avoiding-`ws`
either still avoids the new written set, or can be restarted at an
in-bounds neighbor of `node`. -/
theorem pathW_surgery {bytes : Graphics.Bytes} {start : Color}
    {ws : List (ℤ × ℤ)} {node u p : ℤ × ℤ}
    (hpath : Graphics.PathW bytes start ws u p) (hpne : p ≠ node) :
    Graphics.PathW bytes start (node :: ws) u p ∨
      ∃ r ∈ Graphics.nbrs node, Graphics.contains r.1 r.2 = true ∧
        Graphics.PathW bytes start (node :: ws) r p := by
  revert hpne
  induction hpath with
  | refl p =>
    intro hpne
    exact .inl (.refl p)
  | @step u q p hcol hw hn hc hp ih =>
    intro hpne
    rcases ih hpne with ihl | ihr
    · by_cases hu : u = node
      · subst hu
        exact .inr ⟨q, hn, hc, ihl⟩
      · refine .inl (.step hcol ?_ hn hc ihl)
        intro hmem
        rcases List.mem_cons.mp hmem with h | h
        · exact hu h
        · exact hw h
    · exact .inr ihr

/-- Every reachable pixel has a path from the start with nothing written. -/
theorem reach_pathW {bytes : Graphics.Bytes} {start : Color} {s p : ℤ × ℤ}
    (h : Graphics.Reach bytes start s p) :
    Graphics.PathW bytes start [] s p := by
  induction h with
  | start h => exact .refl s
  | step hp hcol hq hcq ih =>
    exact pathW_snoc ih hcol (List.not_mem_nil _) hq hcq

/-- Membership in the start-pixel set. -/
theorem mem_startPixels {bytes : Graphics.Bytes} {start : Color} {p : ℤ × ℤ} :
    p ∈ Graphics.startPixels bytes start ↔
      (Graphics.contains p.1 p.2 = true ∧ Graphics.readPx bytes p = start) := by
  unfold Graphics.startPixels
  simp only [Finset.mem_filter, Finset.mem_image, Finset.mem_product,
    Finset.mem_range, Prod.exists]
  constructor
  · rintro ⟨⟨a, b, ⟨ha, hb⟩, rfl⟩, hcol⟩
    refine ⟨contains_iff.mpr ⟨?_, ?_, ?_, ?_⟩, hcol⟩ <;> simp <;> omega
  · rintro ⟨hc, hcol⟩
    rcases contains_iff.mp hc with ⟨h1, h2, h3, h4⟩
    refine ⟨⟨p.1.toNat, p.2.toNat, ⟨by omega, by omega⟩, ?_⟩, hcol⟩
    have e1 : ((p.1.toNat : ℤ)) = p.1 := Int.toNat_of_nonneg h1
    have e2 : ((p.2.toNat : ℤ)) = p.2 := Int.toNat_of_nonneg h3
    exact Prod.ext e1 e2

/-- Filtering out one more present element strictly shrinks a finite set. -/
theorem filter_cons_card_lt (S : Finset (ℤ × ℤ)) (node : ℤ × ℤ)
    (ws : List (ℤ × ℤ)) (hmem : node ∈ S) (hnw : node ∉ ws) :
    (S.filter (fun p => p ∉ node :: ws)).card <
      (S.filter (fun p => p ∉ ws)).card := by
  apply Finset.card_lt_card
  rw [Finset.ssubset_iff_of_subset]
  · refine ⟨node, ?_, ?_⟩
    · exact Finset.mem_filter.mpr ⟨hmem, by simpa using hnw⟩
    · intro hin
      have := (Finset.mem_filter.mp hin).2
      simp at this
  · intro p hp
    have hp₂ := Finset.mem_filter.mp hp
    refine Finset.mem_filter.mpr ⟨hp₂.1, ?_⟩
    have := hp₂.2
    simp only [decide_eq_true_eq, List.mem_cons] at this ⊢
    tauto

/-- Writing a start-colored pixel strictly decreases the measure. -/
theorem remaining_cons_lt {bytes : Graphics.Bytes} {start : Color}
    {ws : List (ℤ × ℤ)} {node : ℤ × ℤ}
    (hmem : node ∈ Graphics.startPixels bytes start) (hnw : node ∉ ws) :
    Graphics.remaining bytes start (node :: ws) <
      Graphics.remaining bytes start ws := by
  unfold Graphics.remaining
  exact filter_cons_card_lt _ node ws hmem hnw

/-- The measure is bounded by the pixel count. -/
theorem remaining_le (bytes : Graphics.Bytes) (start : Color)
    (ws : List (ℤ × ℤ)) :
    Graphics.remaining bytes start ws ≤ Graphics.WIDTH * Graphics.HEIGHT := by
  unfold Graphics.remaining Graphics.startPixels
  calc _ ≤ ((((Finset.range Graphics.WIDTH) ×ˢ (Finset.range Graphics.HEIGHT)).image
        (fun ab => ((ab.1 : ℤ), (ab.2 : ℤ)))).filter
        (fun p => Graphics.readPx bytes p = start)).card := Finset.card_filter_le _ _
    _ ≤ (((Finset.range Graphics.WIDTH) ×ˢ (Finset.range Graphics.HEIGHT)).image
        (fun ab => ((ab.1 : ℤ), (ab.2 : ℤ)))).card := Finset.card_filter_le _ _
    _ ≤ ((Finset.range Graphics.WIDTH) ×ˢ (Finset.range Graphics.HEIGHT)).card :=
        Finset.card_image_le
    _ = Graphics.WIDTH * Graphics.HEIGHT := by
        rw [Finset.card_product, Finset.card_range, Finset.card_range]

/-- Witness for C1 with a negative count: `repeat (-3)` around `home` runs
the body zero times. -/
theorem eval_repeat_counts_witness :
    Interp.eval_repeat stubOps 0 (Interp.Frame.mk 7) [] []
      (Interp.RepeatNode.mk (.number (F64.num (-3))) [Interp.Node.home])
      Interp.Interpreter.new = (Interp.Interpreter.new, [], .ok ()) := by
  apply eval_repeat_counts.2.2 stubOps 0 (Interp.Frame.mk 7) [] [] _
    Interp.Interpreter.new (F64.num (-3))
  · simp [Interp.eval_expr_num_word_as_number, Interp.eval_expr_num_word,
      Interp.get_number, Interp.RepeatNode.count]
  · decide

/-- With an empty queue and the invariant, the buffer is the original one
with the fill color exactly on the written pixels, and nothing reachable
and start-colored is left unwritten. -/
theorem inv_empty_queue {bytes : Graphics.Bytes} {start fill : Color}
    {s : ℤ × ℤ} {ws : List (ℤ × ℤ)} {b : Graphics.Bytes}
    (hInv : Graphics.Inv bytes start fill s ws [] b) (p : ℤ × ℤ)
    (hp : Graphics.contains p.1 p.2 = true) :
    ((p ∈ ws ∨ (Graphics.Reach bytes start s p ∧
        Graphics.readPx bytes p = start)) → Graphics.readPx b p = fill) ∧
    (p ∉ ws → Graphics.readPx b p = Graphics.readPx bytes p) := by
  obtain ⟨inv1, inv2, inv3, inv4⟩ := hInv
  constructor
  · rintro (hmem | ⟨hr, hcol⟩)
    · rw [inv2 p hp, if_pos hmem]
    · by_cases hw : p ∈ ws
      · rw [inv2 p hp, if_pos hw]
      · rcases inv4 p hr hcol hw with ⟨u, hu, _⟩
        exact absurd hu (List.not_mem_nil u)
  · intro hw
    rw [inv2 p hp, if_neg hw]

/-- Main BFS lemma: starting from any state satisfying the invariant with
enough fuel, the loop fills exactly the written pixels plus the reachable
start-colored pixels, leaving every other in-bounds pixel unchanged. -/
theorem bfs_correct {bytes : Graphics.Bytes} {start fill : Color}
    {s : ℤ × ℤ} (hsf : start ≠ fill) :
    ∀ (fuel : ℕ) (ws q : List (ℤ × ℤ)) (b : Graphics.Bytes),
      Graphics.Inv bytes start fill s ws q b →
      4 * Graphics.remaining bytes start ws + q.length ≤ fuel →
      ∀ p : ℤ × ℤ, Graphics.contains p.1 p.2 = true →
        ((p ∈ ws ∨ (Graphics.Reach bytes start s p ∧
            Graphics.readPx bytes p = start)) →
          Graphics.readPx (Graphics.bfs start fill fuel q b) p = fill) ∧
        (p ∉ ws →
          ¬(Graphics.Reach bytes start s p ∧
            Graphics.readPx bytes p = start) →
          Graphics.readPx (Graphics.bfs start fill fuel q b) p =
            Graphics.readPx bytes p) := by
  intro fuel
  induction fuel with
  | zero =>
    intro ws q b hInv hfuel p hp
    have hq : q = [] := List.length_eq_zero.mp (by omega)
    subst hq
    have h := inv_empty_queue hInv p hp
    exact ⟨h.1, fun hw _ => h.2 hw⟩
  | succ f ih =>
    intro ws q b hInv hfuel p hp
    cases q with
    | nil =>
      have h := inv_empty_queue hInv p hp
      exact ⟨h.1, fun hw _ => h.2 hw⟩
    | cons node rest =>
      obtain ⟨inv1, inv2, inv3, inv4⟩ := hInv
      have hnode := inv3 node (List.mem_cons_self node rest)
      by_cases hcur : Graphics.readPx b node = start
      · -- the popped pixel still carries the start color: write and push
        have hnw : node ∉ ws := by
          intro hin
          have h2 := inv2 node hnode.1
          rw [if_pos hin] at h2
          rw [h2] at hcur
          exact hsf hcur.symm
        have h0col : Graphics.readPx bytes node = start := by
          have h2 := inv2 node hnode.1
          rw [if_neg hnw] at h2
          rw [← h2]
          exact hcur
        have hstep : Graphics.bfs start fill (f + 1) (node :: rest) b =
            Graphics.bfs start fill f
              (rest ++ (Graphics.nbrs node).filter
                (fun r => Graphics.contains r.1 r.2))
              (Graphics.writePx b node fill) := by
          show (if Graphics.read_xy b node.1.toNat node.2.toNat = start then
              Graphics.bfs start fill f
                (rest ++ (Graphics.nbrs node).filter
                  (fun r => Graphics.contains r.1 r.2))
                (Graphics.write_xy b node.1.toNat node.2.toNat fill)
            else Graphics.bfs start fill f rest b) = _
          have hcur₂ : Graphics.read_xy b node.1.toNat node.2.toNat = start := hcur
          rw [if_pos hcur₂]
          rfl
        have hInv₂ : Graphics.Inv bytes start fill s (node :: ws)
            (rest ++ (Graphics.nbrs node).filter
              (fun r => Graphics.contains r.1 r.2))
            (Graphics.writePx b node fill) := by
          refine ⟨?_, ?_, ?_, ?_⟩
          · intro p₂ hpmem
            rcases List.mem_cons.mp hpmem with h | h
            · subst h
              exact ⟨hnode.1, h0col, hnode.2⟩
            · exact inv1 p₂ h
          · intro p₂ hpc
            by_cases hpn : p₂ = node
            · subst hpn
              rw [readPx_writePx_eq, if_pos (List.mem_cons_self _ _)]
            · rw [readPx_writePx_ne hnode.1 hpc hpn, inv2 p₂ hpc]
              by_cases hpw : p₂ ∈ ws
              · rw [if_pos hpw, if_pos (List.mem_cons_of_mem _ hpw)]
              · rw [if_neg hpw, if_neg (by
                  intro hmem
                  rcases List.mem_cons.mp hmem with h | h
                  exacts [hpn h, hpw h])]
          · intro p₂ hpq
            rcases List.mem_append.mp hpq with h | h
            · exact inv3 p₂ (List.mem_cons_of_mem _ h)
            · have hf := List.mem_filter.mp h
              exact ⟨hf.2, .step hnode.2 h0col hf.1 hf.2⟩
          · intro p₂ hr hcol hwp
            have hpn : p₂ ≠ node := by
              intro he
              subst he
              exact hwp (List.mem_cons_self _ _)
            have hpws : p₂ ∉ ws := fun h => hwp (List.mem_cons_of_mem _ h)
            rcases inv4 p₂ hr hcol hpws with ⟨u, hu, hpath⟩
            rcases List.mem_cons.mp hu with h | h
            · subst h
              rcases pathW_surgery hpath hpn with hl | ⟨r, hrn, hrc, hrp⟩
              · cases hl with
                | refl => exact absurd rfl hpn
                | step hcol₂ hw₂ hn₂ hc₂ hp₂ =>
                  exact absurd (List.mem_cons_self _ _) hw₂
              · exact ⟨r, List.mem_append.mpr
                  (.inr (List.mem_filter.mpr ⟨hrn, hrc⟩)), hrp⟩
            · rcases pathW_surgery hpath hpn with hl | ⟨r, hrn, hrc, hrp⟩
              · exact ⟨u, List.mem_append.mpr (.inl h), hl⟩
              · exact ⟨r, List.mem_append.mpr
                  (.inr (List.mem_filter.mpr ⟨hrn, hrc⟩)), hrp⟩
        have hmemS : node ∈ Graphics.startPixels bytes start :=
          mem_startPixels.mpr ⟨hnode.1, h0col⟩
        have hdec := remaining_cons_lt hmemS hnw
        have h4 : (Graphics.nbrs node).length = 4 := rfl
        have hlenf := List.length_filter_le
          (fun r => Graphics.contains r.1 r.2) (Graphics.nbrs node)
        rw [h4] at hlenf
        have hfuel₂ : 4 * Graphics.remaining bytes start (node :: ws) +
            (rest ++ (Graphics.nbrs node).filter
              (fun r => Graphics.contains r.1 r.2)).length ≤ f := by
          rw [List.length_append]
          simp only [List.length_cons] at hfuel
          omega
        have hIH := ih (node :: ws) _ _ hInv₂ hfuel₂ p hp
        rw [hstep]
        constructor
        · rintro (hmem | hrc)
          · exact hIH.1 (.inl (List.mem_cons_of_mem _ hmem))
          · exact hIH.1 (.inr hrc)
        · intro hwp hnrc
          have hpn : p ≠ node := by
            intro he
            subst he
            exact hnrc ⟨hnode.2, h0col⟩
          refine hIH.2 ?_ hnrc
          intro hmem
          rcases List.mem_cons.mp hmem with h | h
          exacts [hpn h, hwp h]
      · -- the popped pixel was already overwritten or never matched: skip
        have hstep : Graphics.bfs start fill (f + 1) (node :: rest) b =
            Graphics.bfs start fill f rest b := by
          show (if Graphics.read_xy b node.1.toNat node.2.toNat = start then
              Graphics.bfs start fill f
                (rest ++ (Graphics.nbrs node).filter
                  (fun r => Graphics.contains r.1 r.2))
                (Graphics.write_xy b node.1.toNat node.2.toNat fill)
            else Graphics.bfs start fill f rest b) = _
          have hcur₂ : ¬ Graphics.read_xy b node.1.toNat node.2.toNat = start := hcur
          rw [if_neg hcur₂]
        have hInv₂ : Graphics.Inv bytes start fill s ws rest b := by
          refine ⟨inv1, inv2,
            fun p₂ hp₂ => inv3 p₂ (List.mem_cons_of_mem _ hp₂), ?_⟩
          intro p₂ hr hcol hwp
          rcases inv4 p₂ hr hcol hwp with ⟨u, hu, hpath⟩
          rcases List.mem_cons.mp hu with h | h
          · rw [h] at hpath
            cases hpath with
            | refl =>
              exfalso
              apply hcur
              rw [inv2 _ hnode.1, if_neg hwp]
              exact hcol
            | step hcol₂ hw₂ hn₂ hc₂ hp₂ =>
              exfalso
              apply hcur
              rw [inv2 _ hnode.1, if_neg hw₂]
              exact hcol₂
          · exact ⟨u, h, hpath⟩
        have hfuel₂ : 4 * Graphics.remaining bytes start ws +
            rest.length ≤ f := by
          simp only [List.length_cons] at hfuel
          omega
        rw [hstep]
        exact ih ws rest b hInv₂ hfuel₂ p hp

/-- Counterexample to C8 as stated: in `ffBytes` the screen pixels (0, 0)
and (5, 5) both carry the start color (white), yet flood-filling red from
turtle position (-320, 240) — screen pixel (0, 0) — recolors (0, 0) and
leaves (5, 5) white: the BFS replaces only the 4-connected component of
the start pixel, not every pixel strictly equal to the start color. -/
theorem flood_fill_global_replacement_cex :
    Graphics.readPx ffBytes (5, 5) = Graphics.readPx ffBytes (0, 0) ∧
    Graphics.readPx (Graphics.flood_fill ffBytes ffPos Color.RED) (0, 0) =
      Color.RED ∧
    Graphics.readPx (Graphics.flood_fill ffBytes ffPos Color.RED) (5, 5) ≠
      Color.RED := by
  refine ⟨?_, ?_, ?_⟩ <;> decide

/-- C8: `flood_fill` starts at `screen_xy(pos.x as i32, -pos.y as i32)`;
it is a no-op when the start pixel is out of bounds or when the start
pixel's color already equals the fill color; otherwise its FIFO BFS over
4-neighbors replaces with the fill color exactly the pixels 4-connected
to the start pixel through pixels of the start color — not every pixel
strictly equal to the start color — and leaves every other in-bounds
pixel unchanged. -/
theorem flood_fill_bfs_component (bytes : Graphics.Bytes)
    (pos : Interp.Point) (color : Color) (sx sy : ℤ)
    (hs : Graphics.screen_xy pos.x.asI32 pos.y.neg.asI32 = (sx, sy)) :
    (¬ Graphics.contains sx sy = true →
      Graphics.flood_fill bytes pos color = bytes) ∧
    (Graphics.readPx bytes (sx, sy) = color →
      Graphics.flood_fill bytes pos color = bytes) ∧
    (Graphics.contains sx sy = true →
      Graphics.readPx bytes (sx, sy) ≠ color →
      ∀ p : ℤ × ℤ, Graphics.contains p.1 p.2 = true →
        ((Graphics.Reach bytes (Graphics.readPx bytes (sx, sy)) (sx, sy) p ∧
            Graphics.readPx bytes p = Graphics.readPx bytes (sx, sy)) →
          Graphics.readPx (Graphics.flood_fill bytes pos color) p = color) ∧
        (¬(Graphics.Reach bytes (Graphics.readPx bytes (sx, sy)) (sx, sy) p ∧
            Graphics.readPx bytes p = Graphics.readPx bytes (sx, sy)) →
          Graphics.readPx (Graphics.flood_fill bytes pos color) p =
            Graphics.readPx bytes p)) := by
  have hff : Graphics.flood_fill bytes pos color =
      (if ¬ Graphics.contains sx sy = true then bytes
       else if Graphics.read_xy bytes sx.toNat sy.toNat = color then bytes
       else Graphics.bfs (Graphics.read_xy bytes sx.toNat sy.toNat) color
         (4 * Graphics.WIDTH * Graphics.HEIGHT + 1) [(sx, sy)] bytes) := by
    unfold Graphics.flood_fill
    rw [hs]
  refine ⟨?_, ?_, ?_⟩
  · intro hnc
    rw [hff, if_pos hnc]
  · intro heq
    rw [hff]
    by_cases hnc : Graphics.contains sx sy = true
    · have heq₂ : Graphics.read_xy bytes sx.toNat sy.toNat = color := heq
      rw [if_neg (not_not_intro hnc), if_pos heq₂]
    · rw [if_pos hnc]
  · intro hc hne p hp
    have hne₂ : Graphics.read_xy bytes sx.toNat sy.toNat ≠ color := hne
    rw [hff, if_neg (not_not_intro hc), if_neg hne₂]
    have hInv : Graphics.Inv bytes (Graphics.read_xy bytes sx.toNat sy.toNat)
        color (sx, sy) [] [(sx, sy)] bytes := by
      refine ⟨?_, ?_, ?_, ?_⟩
      · intro p₂ hp₂
        exact absurd hp₂ (List.not_mem_nil p₂)
      · intro p₂ hp₂
        rw [if_neg (List.not_mem_nil p₂)]
      · intro p₂ hp₂
        rw [List.mem_singleton] at hp₂
        subst hp₂
        exact ⟨hc, .start hc⟩
      · intro p₂ hr hcol hw
        exact ⟨(sx, sy), List.mem_singleton.mpr rfl, reach_pathW hr⟩
    have hfuel : 4 * Graphics.remaining bytes
        (Graphics.read_xy bytes sx.toNat sy.toNat) [] +
        ([(sx, sy)] : List (ℤ × ℤ)).length ≤
        4 * Graphics.WIDTH * Graphics.HEIGHT + 1 := by
      have h := remaining_le bytes (Graphics.read_xy bytes sx.toNat sy.toNat) []
      have hWH : Graphics.WIDTH * Graphics.HEIGHT = 307200 := rfl
      have h2 : 4 * Graphics.WIDTH * Graphics.HEIGHT = 4 * 307200 := rfl
      rw [hWH] at h
      rw [h2]
      simp only [List.length_singleton]
      omega
    have hmain := bfs_correct hne₂ (4 * Graphics.WIDTH * Graphics.HEIGHT + 1)
      [] [(sx, sy)] bytes hInv hfuel p hp
    constructor
    · intro hrc
      exact hmain.1 (.inr hrc)
    · intro hnrc
      exact hmain.2 (List.not_mem_nil p) hnrc

/-- Witness for C8: the amended theorem applied at the concrete buffer
`ffBytes`, filling blue from screen pixel (0, 0): the start pixel itself
is reachable, so it ends up blue. -/
theorem flood_fill_bfs_component_witness :
    Graphics.readPx (Graphics.flood_fill ffBytes ffPos Color.BLUE) (0, 0) =
      Color.BLUE := by
  have h := (flood_fill_bfs_component ffBytes ffPos Color.BLUE 0 0
    (by decide)).2.2 (by decide) (by decide) (0, 0) (by decide)
  exact h.1 ⟨Graphics.Reach.start (by decide), by decide⟩

end TurtleRust
